import Mathlib

/-!
Shallow embedding of `src/utils/imageProcessor.ts` from the
Online-Image-Resizer repository.

The TypeScript core decodes an image file, then either

* (lossy path, JPEG/WEBP) runs a 10-iteration binary search on the
  quality parameter with dimensions fixed at the intrinsic size, with a
  single fallback encode at the final `minQuality` when no attempt fit
  the byte budget, rejecting the fallback when it overshoots the budget
  by more than 20%; or
* (lossless path, PNG) repeatedly shrinks the canvas dimensions by 5%
  of the original per step while the encoded size exceeds the budget and
  the scale stays above 0.1, returning the last blob produced.

Numbers: JavaScript numbers are modelled as `ℚ`.  The lossy path's
quality halvings are dyadic and float-exact, so exact rational
arithmetic is faithful there.  The lossless path's `scale -= 0.05`
drifts in binary64; the exact-rational loop (`losslessSearch`) is kept
for the loop/guard-structure claims, where the drift is unobservable,
and a binary64-faithful twin (`fl`, `jsScale`, `losslessSearchFl`,
`processImageFl`) models the drifted scales and double products for the
dimension-level claims.  Byte sizes are `Nat`.  The decode / encode /
resample capabilities of the browser are an abstract pure `Backend`
record, as the spec's §6 interfaces prescribe.  `processImage`
additionally returns the list of encode calls it performed (the trace),
used to state iteration-count and dimension claims.
-/

/-- Output formats accepted by `processImage` (`TargetFormat` in the source). -/
inductive TargetFormat
  | jpeg
  | png
  | webp
deriving DecidableEq, Repr

/-- A decoded source image: intrinsic dimensions plus the decoded pixel
buffer (`HTMLImageElement` produced by `loadImage`). -/
structure SourceImage where
  width : Nat
  height : Nat
  pixels : List Nat
deriving DecidableEq, Repr

/-- The pure decode / resample / encode backend (the browser's image
codec capabilities, per §6 of the spec): `decode` turns file bytes into
a source image or fails; `resample` produces a new pixel buffer at the
requested dimensions; `encode` produces encoded bytes from a pixel
buffer, dimensions, format and quality. -/
structure Backend where
  decode : List Nat → Option SourceImage
  resample : SourceImage → Nat → Nat → List Nat
  encode : TargetFormat → ℚ → List Nat → Nat → Nat → List Nat

/-- The canvas state: its dimensions and current pixel content. -/
structure Canvas where
  width : Nat
  height : Nat
  content : List Nat
deriving DecidableEq, Repr

/-- `canvas.toBlob(format, quality)` on the current canvas state
(`getCanvasBlob` in the source); the backend is pure, so the blob is just
its byte list. -/
def getCanvasBlob (B : Backend) (canvas : Canvas) (format : TargetFormat)
    (quality : ℚ) : List Nat :=
  B.encode format quality canvas.content canvas.width canvas.height

/-- One recorded encoder invocation: the format, quality, pixel content
and dimensions passed to `canvas.toBlob`. -/
structure EncodeCall where
  format : TargetFormat
  quality : ℚ
  content : List Nat
  width : Nat
  height : Nat
deriving DecidableEq, Repr

/-- Re-run a recorded encode call against the backend. -/
def EncodeCall.run (B : Backend) (c : EncodeCall) : List Nat :=
  B.encode c.format c.quality c.content c.width c.height

/-- Errors surfaced by `processImage` (§7 taxonomy): decode failure and
the lossy path's unreachable-budget rejection. -/
inductive ProcessError
  | decodeError
  | unreachableBudget
deriving DecidableEq, Repr

/-- The successful result of `processImage`: the chosen blob and its
reported size in KB (`finalSizeKB = blob.size / 1024`). -/
structure ProcResult where
  blob : List Nat
  finalSizeKB : ℚ
deriving DecidableEq, Repr

/-- The lossy binary-search loop (`for (let i = 0; i < 10; i++)` in the
source), with the iteration count as an explicit argument.  State:
`minQuality`, `maxQuality`, `bestBlob`; the trace accumulates every
encode call made.  Each iteration encodes at
`quality = (minQuality + maxQuality) / 2` on the fixed canvas; if the
blob fits the budget it becomes `bestBlob` and `minQuality` rises,
otherwise `maxQuality` falls. -/
def lossySearch (B : Backend) (fmt : TargetFormat) (canvas : Canvas)
    (targetSizeBytes : ℚ) :
    Nat → ℚ → ℚ → Option (List Nat) → List EncodeCall →
    ℚ × ℚ × Option (List Nat) × List EncodeCall
  | 0, minQ, maxQ, best, trace => (minQ, maxQ, best, trace)
  | Nat.succ n, minQ, maxQ, best, trace =>
    let quality := (minQ + maxQ) / 2
    let currentBlob := getCanvasBlob B canvas fmt quality
    let trace' := trace ++ [⟨fmt, quality, canvas.content, canvas.width, canvas.height⟩]
    if (currentBlob.length : ℚ) ≤ targetSizeBytes then
      lossySearch B fmt canvas targetSizeBytes n quality maxQ (some currentBlob) trace'
    else
      lossySearch B fmt canvas targetSizeBytes n minQ quality best trace'

/-- Canvas dimensions used by the lossless loop at a given scale:
`Math.round(img.width * scale)` by `Math.round(img.height * scale)`. -/
def losslessDims (img : SourceImage) (scale : ℚ) : Nat × Nat :=
  ((round ((img.width : ℚ) * scale)).toNat, (round ((img.height : ℚ) * scale)).toNat)

/-- The canvas drawn by one lossless-loop iteration: dimensions from
`losslessDims`, content resampled from the original image
(`ctx.drawImage(img, 0, 0, canvas.width, canvas.height)`). -/
def losslessCanvas (B : Backend) (img : SourceImage) (scale : ℚ) : Canvas :=
  { width := (losslessDims img scale).1
    height := (losslessDims img scale).2
    content := B.resample img (losslessDims img scale).1 (losslessDims img scale).2 }

/-- The blob produced by one lossless-loop iteration at a given scale. -/
def losslessEncodeAt (B : Backend) (img : SourceImage) (scale : ℚ) : List Nat :=
  getCanvasBlob B (losslessCanvas B img scale) TargetFormat.png 1

/-- The encode call recorded by one lossless-loop iteration. -/
def losslessCall (B : Backend) (img : SourceImage) (scale : ℚ) : EncodeCall :=
  ⟨TargetFormat.png, 1, (losslessCanvas B img scale).content,
    (losslessDims img scale).1, (losslessDims img scale).2⟩

/-- The lossless (PNG) dimension-reduction loop
(`while (currentBlob.size > targetSizeBytes && scale > 0.1)` in the
source).  The source's `while` loop has no fuel; here `fuel` bounds the
number of iterations and the result is `none` exactly when the loop
would still be running after `fuel` iterations (shown impossible for the
actual call, `losslessSearch_isSome`).  Each iteration decrements the
scale by 0.05, redraws the canvas from the original image at the rounded
scaled dimensions, and re-encodes.  The decrement is modelled as exact
rational subtraction: adequate for the loop structure, termination and
trace shape (the binary64 guard also stops after at most 18 decrements),
but not for the computed dimensions, where the drifted scales differ at
half-integer rounding boundaries — the binary64-faithful twin is
`losslessSearchFl`. -/
def losslessSearch (B : Backend) (img : SourceImage) (targetSizeBytes : ℚ) :
    Nat → ℚ → List Nat → List EncodeCall →
    Option (ℚ × List Nat × List EncodeCall)
  | fuel, scale, currentBlob, trace =>
    if targetSizeBytes < (currentBlob.length : ℚ) ∧ 1/10 < scale then
      match fuel with
      | 0 => none
      | Nat.succ n =>
        let scale' := scale - 1/20
        losslessSearch B img targetSizeBytes n scale' (losslessEncodeAt B img scale')
          (trace ++ [losslessCall B img scale'])
    else
      some (scale, currentBlob, trace)

/-- Measure for the lossless loop: number of 0.05 steps above the 0.1
floor, used to show the fuel never runs out. -/
def scaleFuel (scale : ℚ) : Nat := (⌈20 * scale⌉ : ℤ).toNat

/-- The quality binary search step as §4.1-A of the spec words it, over
an abstract per-quality encoder `enc`: state is
(`minQuality`, `maxQuality`, `best`); the step computes
`quality = (minQuality + maxQuality) / 2`, encodes, and on a fit records
the blob as best and raises the floor, otherwise lowers the ceiling.
Used to state the refinement claims about `lossySearch`. -/
def specLossyStep (enc : ℚ → List Nat) (t : ℚ)
    (s : ℚ × ℚ × Option (List Nat)) : ℚ × ℚ × Option (List Nat) :=
  let quality := (s.1 + s.2.1) / 2
  if ((enc quality).length : ℚ) ≤ t then
    (quality, s.2.1, some (enc quality))
  else
    (s.1, quality, s.2.2)

/-- The spec-side search state after `k` iterations, starting from
`minQuality = 0`, `maxQuality = 1`, no best. -/
def specLossyState (enc : ℚ → List Nat) (t : ℚ) (k : Nat) :
    ℚ × ℚ × Option (List Nat) :=
  (specLossyStep enc t)^[k] (0, 1, none)

/-- The quality tested at state `s`: `(minQuality + maxQuality) / 2`. -/
def midQuality (s : ℚ × ℚ × Option (List Nat)) : ℚ := (s.1 + s.2.1) / 2

/-- The encoder the lossy loop actually uses: encode the fixed canvas at
the given quality. -/
def canvasEnc (B : Backend) (cv : Canvas) (fmt : TargetFormat) : ℚ → List Nat :=
  fun q => getCanvasBlob B cv fmt q

/-- The encode calls the lossy loop makes in `n` iterations from state `s`. -/
def lossyTrace (B : Backend) (cv : Canvas) (fmt : TargetFormat) (t : ℚ) :
    Nat → ℚ × ℚ × Option (List Nat) → List EncodeCall
  | 0, _ => []
  | Nat.succ n, s =>
    ⟨fmt, midQuality s, cv.content, cv.width, cv.height⟩ ::
      lossyTrace B cv fmt t n (specLossyStep (canvasEnc B cv fmt) t s)

/-- The state (scale, current blob) of the lossless loop after `k`
iterations from a given start, per the spec's §4.1-B description: each
iteration lowers the scale by 0.05 and re-encodes the source resampled at
the rounded scaled dimensions.  Exact-rational scale model, matching
`losslessSearch`; the program's drifted binary64 scales are `jsScale`. -/
def losslessState (B : Backend) (img : SourceImage) :
    ℚ → List Nat → Nat → ℚ × List Nat
  | scale, blob, 0 => (scale, blob)
  | scale, _, Nat.succ k =>
    losslessState B img (scale - 1/20) (losslessEncodeAt B img (scale - 1/20)) k

/-- The encode calls made by `k` iterations of the lossless loop starting
at `scale`, in the exact-rational scale model of `losslessSearch`; the
binary64 counterpart is `flTrace`. -/
def losslessTraceK (B : Backend) (img : SourceImage) : ℚ → Nat → List EncodeCall
  | _, 0 => []
  | scale, Nat.succ k =>
    losslessCall B img (scale - 1/20) :: losslessTraceK B img (scale - 1/20) k

/-- Invariant of the binary-search state: `0 ≤ minQuality < maxQuality ≤ 1`. -/
def LossyInv (s : ℚ × ℚ × Option (List Nat)) : Prop :=
  0 ≤ s.1 ∧ s.1 < s.2.1 ∧ s.2.1 ≤ 1

/-- Every best blob recorded so far was encoded at a quality strictly
between 0 and 1, and fits the byte budget. -/
def BestSound (enc : ℚ → List Nat) (t : ℚ) (s : ℚ × ℚ × Option (List Nat)) : Prop :=
  ∀ b, s.2.2 = some b → ∃ q, 0 < q ∧ q < 1 ∧ b = enc q ∧ ((b.length : ℚ) ≤ t)

/-- The loop guard of the lossless search at state `(scale, blob)`. -/
def LosslessCond (t : ℚ) (s : ℚ × List Nat) : Prop :=
  t < (s.2.length : ℚ) ∧ 1/10 < s.1

/-! ## Concrete backends used as witnesses and counterexamples -/

/-- A pure backend that always produces a 1300-byte blob, so no quality
ever fits a 1 KB budget and the fallback overshoots the 20% band. -/
def bigBackend : Backend where
  decode := fun _ => some ⟨2, 2, [7]⟩
  resample := fun _ w h => List.replicate (w * h) 0
  encode := fun _ _ _ _ _ => List.replicate 1300 0

/-- A pure backend whose encoded size equals the pixel count, driving the
lossless dimension search. -/
def pngBackend : Backend where
  decode := fun _ => some ⟨40, 40, [1, 2]⟩
  resample := fun _ w h => List.replicate (w * h) 0
  encode := fun _ _ _ w h => List.replicate (w * h) 0

/-- A pure backend on which every decode fails. -/
def noneBackend : Backend where
  decode := fun _ => none
  resample := fun _ w h => List.replicate (w * h) 0
  encode := fun _ _ _ w h => List.replicate (w * h) 0

/-- The fuel bound never runs out for the actual call: starting from
scale 1 with fuel 18, the guard fails no later than the 0.1 floor.  This
fact is needed before `processImage` can be defined, because the
definition extracts the loop result with `Option.get`. -/
theorem losslessSearch_isSome (B : Backend) (img : SourceImage) (t : ℚ) :
    ∀ (fuel : Nat) (scale : ℚ) (blob : List Nat) (trace : List EncodeCall),
    scaleFuel scale ≤ fuel + 2 →
    (losslessSearch B img t fuel scale blob trace).isSome := by
  intro fuel
  induction fuel with
  | zero =>
    intro scale blob trace hle
    rw [losslessSearch]
    split
    · next hcond =>
      exfalso
      have h2 : (2 : ℚ) < 20 * scale := by linarith [hcond.2]
      have h3 : (3 : ℤ) ≤ ⌈20 * scale⌉ := by
        have := Int.lt_ceil.mpr (show ((2 : ℤ) : ℚ) < 20 * scale by exact_mod_cast h2)
        omega
      have : (3 : ℕ) ≤ scaleFuel scale := by
        unfold scaleFuel
        omega
      omega
    · simp
  | succ n ih =>
    intro scale blob trace hle
    rw [losslessSearch]
    split
    · next hcond =>
      apply ih
      have h2 : (2 : ℚ) < 20 * scale := by linarith [hcond.2]
      have hceil : (⌈20 * (scale - 1/20)⌉ : ℤ) = ⌈20 * scale⌉ - 1 := by
        have h20 : 20 * (scale - 1/20) = 20 * scale - 1 := by ring
        rw [h20]
        exact_mod_cast Int.ceil_sub_int (20 * scale) 1
      have h3 : (3 : ℤ) ≤ ⌈20 * scale⌉ := by
        have := Int.lt_ceil.mpr (show ((2 : ℤ) : ℚ) < 20 * scale by exact_mod_cast h2)
        omega
      unfold scaleFuel at hle ⊢
      rw [hceil]
      omega
    · simp

/-- `processImage(file, targetSizeKB, targetFormat)` from the source,
over the pure backend `B`; `fileBytes` stands for the file's bytes.
Returns the result (or error) together with the trace of encode calls
performed.  Decode happens first; on failure no encode call is made.
The canvas starts at the intrinsic dimensions with the image drawn
unscaled; PNG dispatches to the dimension loop, JPEG/WEBP to the
quality binary search with its fallback. -/
def processImage (B : Backend) (fileBytes : List Nat) (targetSizeKB : ℚ)
    (targetFormat : TargetFormat) :
    Except ProcessError ProcResult × List EncodeCall :=
  let targetSizeBytes := targetSizeKB * 1024
  match B.decode fileBytes with
  | none => (Except.error ProcessError.decodeError, [])
  | some img =>
    let canvas0 : Canvas := ⟨img.width, img.height, img.pixels⟩
    if targetFormat = TargetFormat.png then
      let currentBlob := getCanvasBlob B canvas0 TargetFormat.png 1
      let trace0 : List EncodeCall :=
        [⟨TargetFormat.png, 1, canvas0.content, canvas0.width, canvas0.height⟩]
      let r := (losslessSearch B img targetSizeBytes 18 1 currentBlob trace0).get
        (losslessSearch_isSome B img targetSizeBytes 18 1 currentBlob trace0
          (by norm_num [scaleFuel]))
      (Except.ok ⟨r.2.1, (r.2.1.length : ℚ) / 1024⟩, r.2.2)
    else
      let res := lossySearch B targetFormat canvas0 targetSizeBytes 10 0 1 none []
      let minQuality := res.1
      let bestBlob := res.2.2.1
      let trace := res.2.2.2
      match bestBlob with
      | some blob => (Except.ok ⟨blob, (blob.length : ℚ) / 1024⟩, trace)
      | none =>
        let fallbackBlob := getCanvasBlob B canvas0 targetFormat minQuality
        let trace' := trace ++
          [⟨targetFormat, minQuality, canvas0.content, canvas0.width, canvas0.height⟩]
        if targetSizeKB * 1024 * (6/5) < (fallbackBlob.length : ℚ) then
          (Except.error ProcessError.unreachableBudget, trace')
        else
          (Except.ok ⟨fallbackBlob, (fallbackBlob.length : ℚ) / 1024⟩, trace')

/-! ## Binary64-faithful model of the lossless scale arithmetic

`losslessSearch` above models the JavaScript `scale -= 0.05` as exact
rational subtraction.  That is adequate for the loop/guard structure,
the trace shape and best-effort return (the float guard also stops after
at most 18 decrements), but not for the computed canvas dimensions: the
binary64 drift of `scale -= 0.05` (e.g. 0.8999999999999999 after two
steps) changes `Math.round(width * scale)` at half-integer boundaries.
The following definitions model the scale arithmetic exactly as
IEEE-754 binary64 and are used to settle the dimension claim (C4):
`fl` is round-to-nearest, ties-to-even double rounding; the decrement
subtracts the double nearest 0.05; the guard compares against the
double nearest 0.1; the dimension products are double multiplications;
`Math.round` itself is exact round-half-up per the ECMAScript
specification. -/

/-- Round a rational to the nearest integer, ties to even (the rounding
used for IEEE-754 significands). -/
def roundHalfEven (x : ℚ) : ℤ :=
  if x - ⌊x⌋ < 1/2 then ⌊x⌋
  else if 1/2 < x - ⌊x⌋ then ⌊x⌋ + 1
  else if 2 ∣ ⌊x⌋ then ⌊x⌋ else ⌊x⌋ + 1

/-- Round a positive rational to the nearest IEEE-754 binary64 value
(round to nearest, ties to even): the value is scaled by its binade
`Int.log 2 x` so the significand lies in `[2^52, 2^53)`, rounded
half-to-even, and scaled back.  Every number the lossless loop
manipulates is a strictly positive normal double, so overflow and
subnormal handling are not needed; non-positive arguments are returned
unchanged. -/
def fl (x : ℚ) : ℚ :=
  if 0 < x then
    ((roundHalfEven (x * 2 ^ ((52 : ℤ) - Int.log 2 x)) : ℤ) : ℚ) *
      2 ^ (Int.log 2 x - 52)
  else x

/-- One binary64 `scale -= 0.05` step: subtract the double nearest 0.05
and round the result. -/
def sub05Fl (x : ℚ) : ℚ := fl (x - fl (1/20))

/-- The program's binary64 scale sequence: 1.0, then repeated
`scale -= 0.05` in double arithmetic (1, 0.95, 0.8999999999999999, …). -/
def jsScale : Nat → ℚ
  | 0 => 1
  | Nat.succ k => sub05Fl (jsScale k)

/-- Canvas dimensions in binary64: `img.width * scale` is a double
multiplication (rounded by `fl`), then `Math.round` (exact round half
up on the double's value, per the ECMAScript specification). -/
def losslessDimsFl (img : SourceImage) (scale : ℚ) : Nat × Nat :=
  ((round (fl ((img.width : ℚ) * scale))).toNat,
   (round (fl ((img.height : ℚ) * scale))).toNat)

/-- The canvas drawn by one binary64 lossless-loop iteration. -/
def losslessCanvasFl (B : Backend) (img : SourceImage) (scale : ℚ) : Canvas :=
  { width := (losslessDimsFl img scale).1
    height := (losslessDimsFl img scale).2
    content := B.resample img (losslessDimsFl img scale).1 (losslessDimsFl img scale).2 }

/-- The blob produced by one binary64 lossless-loop iteration. -/
def losslessEncodeAtFl (B : Backend) (img : SourceImage) (scale : ℚ) : List Nat :=
  getCanvasBlob B (losslessCanvasFl B img scale) TargetFormat.png 1

/-- The encode call recorded by one binary64 lossless-loop iteration. -/
def losslessCallFl (B : Backend) (img : SourceImage) (scale : ℚ) : EncodeCall :=
  ⟨TargetFormat.png, 1, (losslessCanvasFl B img scale).content,
    (losslessDimsFl img scale).1, (losslessDimsFl img scale).2⟩

/-- The lossless loop with binary64 scale arithmetic: the guard compares
the scale against the double nearest 0.1, and the decrement is
`sub05Fl`; otherwise identical to `losslessSearch`. -/
def losslessSearchFl (B : Backend) (img : SourceImage) (targetSizeBytes : ℚ) :
    Nat → ℚ → List Nat → List EncodeCall →
    Option (ℚ × List Nat × List EncodeCall)
  | fuel, scale, currentBlob, trace =>
    if targetSizeBytes < (currentBlob.length : ℚ) ∧ fl (1/10) < scale then
      match fuel with
      | 0 => none
      | Nat.succ n =>
        let scale' := sub05Fl scale
        losslessSearchFl B img targetSizeBytes n scale'
          (losslessEncodeAtFl B img scale')
          (trace ++ [losslessCallFl B img scale'])
    else
      some (scale, currentBlob, trace)

/-- The blob the binary64 loop holds after `k` steps (step 0 is the
initial unscaled encode passed in). -/
def flBlobAt (B : Backend) (img : SourceImage) (blob0 : List Nat) : Nat → List Nat
  | 0 => blob0
  | Nat.succ k => losslessEncodeAtFl B img (jsScale (k + 1))

/-- The binary64 loop's encode calls for steps `k+1 … k+n`. -/
def flTrace (B : Backend) (img : SourceImage) : Nat → Nat → List EncodeCall
  | _, 0 => []
  | k, Nat.succ n => losslessCallFl B img (jsScale (k + 1)) :: flTrace B img (k + 1) n

/-- A pure backend with a 45×45 source whose encoded size equals the
pixel count: the width 45 makes the exact scale 0.9 hit the
half-integer product 40.5 while the drifted double scale falls below
it. -/
def png45Backend : Backend where
  decode := fun _ => some ⟨45, 45, [9]⟩
  resample := fun _ w h => List.replicate (w * h) 0
  encode := fun _ _ _ w h => List.replicate (w * h) 0

/-! Evaluation lemmas for `fl`, needed (through the termination of the
binary64 loop) before `processImageFl` can be defined. -/

theorem int_log_eq (x : ℚ) (e : ℤ) (hx : 0 < x)
    (h1 : (2 : ℚ) ^ e ≤ x) (h2 : x < 2 ^ (e + 1)) : Int.log 2 x = e := by
  have hlo := Int.zpow_log_le_self (b := 2) (by norm_num) hx
  have hhi := Int.lt_zpow_succ_log_self (b := 2) (by norm_num) x
  push_cast at hlo hhi
  by_contra hne
  rcases lt_or_gt_of_ne hne with h | h
  · have hle : (2 : ℚ) ^ (Int.log 2 x + 1) ≤ 2 ^ e := by
      apply zpow_le_zpow_right₀ (by norm_num)
      omega
    linarith
  · have hle : (2 : ℚ) ^ (e + 1) ≤ 2 ^ (Int.log 2 x) := by
      apply zpow_le_zpow_right₀ (by norm_num)
      omega
    linarith

theorem roundHalfEven_lt (x : ℚ) (n : ℤ) (h1 : (n : ℚ) ≤ x)
    (h2 : x < (n : ℚ) + 1/2) : roundHalfEven x = n := by
  have hf : ⌊x⌋ = n := Int.floor_eq_iff.mpr ⟨h1, by linarith⟩
  unfold roundHalfEven
  rw [hf, if_pos]
  linarith

theorem roundHalfEven_gt (x : ℚ) (n : ℤ) (h1 : (n : ℚ) + 1/2 < x)
    (h2 : x < (n : ℚ) + 1) : roundHalfEven x = n + 1 := by
  have hf : ⌊x⌋ = n := Int.floor_eq_iff.mpr ⟨by linarith, by linarith⟩
  unfold roundHalfEven
  rw [hf, if_neg (by linarith), if_pos (by linarith)]

theorem roundHalfEven_tie_odd (x : ℚ) (n : ℤ) (hodd : ¬ 2 ∣ n)
    (hx : x = (n : ℚ) + 1/2) : roundHalfEven x = n + 1 := by
  have hf : ⌊x⌋ = n := Int.floor_eq_iff.mpr ⟨by linarith [hx.ge], by linarith [hx.le]⟩
  unfold roundHalfEven
  rw [hf, if_neg (by rw [hx]; linarith), if_neg (by rw [hx]; linarith),
    if_neg hodd]

theorem fl_eq (x v : ℚ) (e m : ℤ) (hx : 0 < x)
    (h1 : (2 : ℚ) ^ e ≤ x) (h2 : x < 2 ^ (e + 1))
    (hm : roundHalfEven (x * 2 ^ ((52 : ℤ) - e)) = m)
    (hv : (m : ℚ) * 2 ^ (e - 52) = v) : fl x = v := by
  unfold fl
  rw [if_pos hx, int_log_eq x e hx h1 h2, hm, hv]

theorem fl005_val : fl (1/20) = 3602879701896397 / 2 ^ 56 := by
  exact fl_eq _ _ (-5) 7205759403792794 (by norm_num) (by norm_num) (by norm_num)
    (by
      have harg : (1 : ℚ) / 20 * 2 ^ ((52 : ℤ) - (-5)) = 36028797018963968 / 5 := by norm_num
      rw [harg]
      have hr := roundHalfEven_gt ((36028797018963968 : ℚ) / 5) 7205759403792793 (by norm_num) (by norm_num)
      rw [hr]
      norm_num
    )
    (by norm_num)

theorem fl110_val : fl (1/10) = 3602879701896397 / 2 ^ 55 := by
  exact fl_eq _ _ (-4) 7205759403792794 (by norm_num) (by norm_num) (by norm_num)
    (by
      have harg : (1 : ℚ) / 10 * 2 ^ ((52 : ℤ) - (-4)) = 36028797018963968 / 5 := by norm_num
      rw [harg]
      have hr := roundHalfEven_gt ((36028797018963968 : ℚ) / 5) 7205759403792793 (by norm_num) (by norm_num)
      rw [hr]
      norm_num
    )
    (by norm_num)

theorem jsScaleVal0 : jsScale 0 = 1 := rfl

theorem jsScaleVal1 : jsScale 1 = 4278419646001971 / 2 ^ 52 := by
  have hstep : jsScale 1 = fl (jsScale 0 - fl (1/20)) := rfl
  rw [hstep, jsScaleVal0, fl005_val]
  have harg : (1 : ℚ) - 3602879701896397 / 2 ^ 56 = 68454714336031539 / 2 ^ 56 := by norm_num
  rw [harg]
  exact fl_eq _ _ (-1) 8556839292003942 (by norm_num) (by norm_num) (by norm_num)
    (by
      have harg2 : (68454714336031539 : ℚ) / 2 ^ 56 * 2 ^ ((52 : ℤ) - (-1)) = (68454714336031539 : ℚ) / 8 := by norm_num
      rw [harg2]
      exact roundHalfEven_lt _ 8556839292003942 (by norm_num) (by norm_num))
    (by norm_num)

theorem jsScaleVal2 : jsScale 2 = 2026619832316723 / 2 ^ 51 := by
  have hstep : jsScale 2 = fl (jsScale 1 - fl (1/20)) := rfl
  rw [hstep, jsScaleVal1, fl005_val]
  have harg : (4278419646001971 : ℚ) / 2 ^ 52 - 3602879701896397 / 2 ^ 56 = 64851834634135139 / 2 ^ 56 := by norm_num
  rw [harg]
  exact fl_eq _ _ (-1) 8106479329266892 (by norm_num) (by norm_num) (by norm_num)
    (by
      have harg2 : (64851834634135139 : ℚ) / 2 ^ 56 * 2 ^ ((52 : ℤ) - (-1)) = (64851834634135139 : ℚ) / 8 := by norm_num
      rw [harg2]
      exact roundHalfEven_lt _ 8106479329266892 (by norm_num) (by norm_num))
    (by norm_num)

theorem jsScaleVal3 : jsScale 3 = 3828059683264921 / 2 ^ 52 := by
  have hstep : jsScale 3 = fl (jsScale 2 - fl (1/20)) := rfl
  rw [hstep, jsScaleVal2, fl005_val]
  have harg : (2026619832316723 : ℚ) / 2 ^ 51 - 3602879701896397 / 2 ^ 56 = 61248954932238739 / 2 ^ 56 := by norm_num
  rw [harg]
  exact fl_eq _ _ (-1) 7656119366529842 (by norm_num) (by norm_num) (by norm_num)
    (by
      have harg2 : (61248954932238739 : ℚ) / 2 ^ 56 * 2 ^ ((52 : ℤ) - (-1)) = (61248954932238739 : ℚ) / 8 := by norm_num
      rw [harg2]
      exact roundHalfEven_lt _ 7656119366529842 (by norm_num) (by norm_num))
    (by norm_num)

theorem jsScaleVal4 : jsScale 4 = 900719925474099 / 2 ^ 50 := by
  have hstep : jsScale 4 = fl (jsScale 3 - fl (1/20)) := rfl
  rw [hstep, jsScaleVal3, fl005_val]
  have harg : (3828059683264921 : ℚ) / 2 ^ 52 - 3602879701896397 / 2 ^ 56 = 57646075230342339 / 2 ^ 56 := by norm_num
  rw [harg]
  exact fl_eq _ _ (-1) 7205759403792792 (by norm_num) (by norm_num) (by norm_num)
    (by
      have harg2 : (57646075230342339 : ℚ) / 2 ^ 56 * 2 ^ ((52 : ℤ) - (-1)) = (57646075230342339 : ℚ) / 8 := by norm_num
      rw [harg2]
      exact roundHalfEven_lt _ 7205759403792792 (by norm_num) (by norm_num))
    (by norm_num)

theorem jsScaleVal5 : jsScale 5 = 3377699720527871 / 2 ^ 52 := by
  have hstep : jsScale 5 = fl (jsScale 4 - fl (1/20)) := rfl
  rw [hstep, jsScaleVal4, fl005_val]
  have harg : (900719925474099 : ℚ) / 2 ^ 50 - 3602879701896397 / 2 ^ 56 = 54043195528445939 / 2 ^ 56 := by norm_num
  rw [harg]
  exact fl_eq _ _ (-1) 6755399441055742 (by norm_num) (by norm_num) (by norm_num)
    (by
      have harg2 : (54043195528445939 : ℚ) / 2 ^ 56 * 2 ^ ((52 : ℤ) - (-1)) = (54043195528445939 : ℚ) / 8 := by norm_num
      rw [harg2]
      exact roundHalfEven_lt _ 6755399441055742 (by norm_num) (by norm_num))
    (by norm_num)

theorem jsScaleVal6 : jsScale 6 = 1576259869579673 / 2 ^ 51 := by
  have hstep : jsScale 6 = fl (jsScale 5 - fl (1/20)) := rfl
  rw [hstep, jsScaleVal5, fl005_val]
  have harg : (3377699720527871 : ℚ) / 2 ^ 52 - 3602879701896397 / 2 ^ 56 = 50440315826549539 / 2 ^ 56 := by norm_num
  rw [harg]
  exact fl_eq _ _ (-1) 6305039478318692 (by norm_num) (by norm_num) (by norm_num)
    (by
      have harg2 : (50440315826549539 : ℚ) / 2 ^ 56 * 2 ^ ((52 : ℤ) - (-1)) = (50440315826549539 : ℚ) / 8 := by norm_num
      rw [harg2]
      exact roundHalfEven_lt _ 6305039478318692 (by norm_num) (by norm_num))
    (by norm_num)

theorem jsScaleVal7 : jsScale 7 = 2927339757790821 / 2 ^ 52 := by
  have hstep : jsScale 7 = fl (jsScale 6 - fl (1/20)) := rfl
  rw [hstep, jsScaleVal6, fl005_val]
  have harg : (1576259869579673 : ℚ) / 2 ^ 51 - 3602879701896397 / 2 ^ 56 = 46837436124653139 / 2 ^ 56 := by norm_num
  rw [harg]
  exact fl_eq _ _ (-1) 5854679515581642 (by norm_num) (by norm_num) (by norm_num)
    (by
      have harg2 : (46837436124653139 : ℚ) / 2 ^ 56 * 2 ^ ((52 : ℤ) - (-1)) = (46837436124653139 : ℚ) / 8 := by norm_num
      rw [harg2]
      exact roundHalfEven_lt _ 5854679515581642 (by norm_num) (by norm_num))
    (by norm_num)

theorem jsScaleVal8 : jsScale 8 = 337769972052787 / 2 ^ 49 := by
  have hstep : jsScale 8 = fl (jsScale 7 - fl (1/20)) := rfl
  rw [hstep, jsScaleVal7, fl005_val]
  have harg : (2927339757790821 : ℚ) / 2 ^ 52 - 3602879701896397 / 2 ^ 56 = 43234556422756739 / 2 ^ 56 := by norm_num
  rw [harg]
  exact fl_eq _ _ (-1) 5404319552844592 (by norm_num) (by norm_num) (by norm_num)
    (by
      have harg2 : (43234556422756739 : ℚ) / 2 ^ 56 * 2 ^ ((52 : ℤ) - (-1)) = (43234556422756739 : ℚ) / 8 := by norm_num
      rw [harg2]
      exact roundHalfEven_lt _ 5404319552844592 (by norm_num) (by norm_num))
    (by norm_num)

theorem jsScaleVal9 : jsScale 9 = 2476979795053771 / 2 ^ 52 := by
  have hstep : jsScale 9 = fl (jsScale 8 - fl (1/20)) := rfl
  rw [hstep, jsScaleVal8, fl005_val]
  have harg : (337769972052787 : ℚ) / 2 ^ 49 - 3602879701896397 / 2 ^ 56 = 39631676720860339 / 2 ^ 56 := by norm_num
  rw [harg]
  exact fl_eq _ _ (-1) 4953959590107542 (by norm_num) (by norm_num) (by norm_num)
    (by
      have harg2 : (39631676720860339 : ℚ) / 2 ^ 56 * 2 ^ ((52 : ℤ) - (-1)) = (39631676720860339 : ℚ) / 8 := by norm_num
      rw [harg2]
      exact roundHalfEven_lt _ 4953959590107542 (by norm_num) (by norm_num))
    (by norm_num)

theorem jsScaleVal10 : jsScale 10 = 9007199254740985 / 2 ^ 54 := by
  have hstep : jsScale 10 = fl (jsScale 9 - fl (1/20)) := rfl
  rw [hstep, jsScaleVal9, fl005_val]
  have harg : (2476979795053771 : ℚ) / 2 ^ 52 - 3602879701896397 / 2 ^ 56 = 36028797018963939 / 2 ^ 56 := by norm_num
  rw [harg]
  exact fl_eq _ _ (-2) 9007199254740985 (by norm_num) (by norm_num) (by norm_num)
    (by
      have harg2 : (36028797018963939 : ℚ) / 2 ^ 56 * 2 ^ ((52 : ℤ) - (-2)) = (36028797018963939 : ℚ) / 4 := by norm_num
      rw [harg2]
      have hr := roundHalfEven_gt ((36028797018963939 : ℚ) / 4) 9007199254740984 (by norm_num) (by norm_num)
      rw [hr]
      norm_num
    )
    (by norm_num)

theorem jsScaleVal11 : jsScale 11 = 4053239664633443 / 2 ^ 53 := by
  have hstep : jsScale 11 = fl (jsScale 10 - fl (1/20)) := rfl
  rw [hstep, jsScaleVal10, fl005_val]
  have harg : (9007199254740985 : ℚ) / 2 ^ 54 - 3602879701896397 / 2 ^ 56 = 32425917317067543 / 2 ^ 56 := by norm_num
  rw [harg]
  exact fl_eq _ _ (-2) 8106479329266886 (by norm_num) (by norm_num) (by norm_num)
    (by
      have harg2 : (32425917317067543 : ℚ) / 2 ^ 56 * 2 ^ ((52 : ℤ) - (-2)) = (32425917317067543 : ℚ) / 4 := by norm_num
      rw [harg2]
      have hr := roundHalfEven_gt ((32425917317067543 : ℚ) / 4) 8106479329266885 (by norm_num) (by norm_num)
      rw [hr]
      norm_num
    )
    (by norm_num)

theorem jsScaleVal12 : jsScale 12 = 7205759403792787 / 2 ^ 54 := by
  have hstep : jsScale 12 = fl (jsScale 11 - fl (1/20)) := rfl
  rw [hstep, jsScaleVal11, fl005_val]
  have harg : (4053239664633443 : ℚ) / 2 ^ 53 - 3602879701896397 / 2 ^ 56 = 28823037615171147 / 2 ^ 56 := by norm_num
  rw [harg]
  exact fl_eq _ _ (-2) 7205759403792787 (by norm_num) (by norm_num) (by norm_num)
    (by
      have harg2 : (28823037615171147 : ℚ) / 2 ^ 56 * 2 ^ ((52 : ℤ) - (-2)) = (28823037615171147 : ℚ) / 4 := by norm_num
      rw [harg2]
      have hr := roundHalfEven_gt ((28823037615171147 : ℚ) / 4) 7205759403792786 (by norm_num) (by norm_num)
      rw [hr]
      norm_num
    )
    (by norm_num)

theorem jsScaleVal13 : jsScale 13 = 197032483697459 / 2 ^ 49 := by
  have hstep : jsScale 13 = fl (jsScale 12 - fl (1/20)) := rfl
  rw [hstep, jsScaleVal12, fl005_val]
  have harg : (7205759403792787 : ℚ) / 2 ^ 54 - 3602879701896397 / 2 ^ 56 = 25220157913274751 / 2 ^ 56 := by norm_num
  rw [harg]
  exact fl_eq _ _ (-2) 6305039478318688 (by norm_num) (by norm_num) (by norm_num)
    (by
      have harg2 : (25220157913274751 : ℚ) / 2 ^ 56 * 2 ^ ((52 : ℤ) - (-2)) = (25220157913274751 : ℚ) / 4 := by norm_num
      rw [harg2]
      have hr := roundHalfEven_gt ((25220157913274751 : ℚ) / 4) 6305039478318687 (by norm_num) (by norm_num)
      rw [hr]
      norm_num
    )
    (by norm_num)

theorem jsScaleVal14 : jsScale 14 = 5404319552844589 / 2 ^ 54 := by
  have hstep : jsScale 14 = fl (jsScale 13 - fl (1/20)) := rfl
  rw [hstep, jsScaleVal13, fl005_val]
  have harg : (197032483697459 : ℚ) / 2 ^ 49 - 3602879701896397 / 2 ^ 56 = 21617278211378355 / 2 ^ 56 := by norm_num
  rw [harg]
  exact fl_eq _ _ (-2) 5404319552844589 (by norm_num) (by norm_num) (by norm_num)
    (by
      have harg2 : (21617278211378355 : ℚ) / 2 ^ 56 * 2 ^ ((52 : ℤ) - (-2)) = (21617278211378355 : ℚ) / 4 := by norm_num
      rw [harg2]
      have hr := roundHalfEven_gt ((21617278211378355 : ℚ) / 4) 5404319552844588 (by norm_num) (by norm_num)
      rw [hr]
      norm_num
    )
    (by norm_num)

theorem jsScaleVal15 : jsScale 15 = 2251799813685245 / 2 ^ 53 := by
  have hstep : jsScale 15 = fl (jsScale 14 - fl (1/20)) := rfl
  rw [hstep, jsScaleVal14, fl005_val]
  have harg : (5404319552844589 : ℚ) / 2 ^ 54 - 3602879701896397 / 2 ^ 56 = 18014398509481959 / 2 ^ 56 := by norm_num
  rw [harg]
  exact fl_eq _ _ (-3) 9007199254740980 (by norm_num) (by norm_num) (by norm_num)
    (by
      have harg2 : (18014398509481959 : ℚ) / 2 ^ 56 * 2 ^ ((52 : ℤ) - (-3)) = (9007199254740979 : ℚ) + 1/2 := by norm_num
      rw [harg2]
      have hr := roundHalfEven_tie_odd ((9007199254740979 : ℚ) + 1/2) 9007199254740979 (by decide) (by norm_num)
      rw [hr]
      norm_num
    )
    (by norm_num)

theorem jsScaleVal16 : jsScale 16 = 3602879701896391 / 2 ^ 54 := by
  have hstep : jsScale 16 = fl (jsScale 15 - fl (1/20)) := rfl
  rw [hstep, jsScaleVal15, fl005_val]
  have harg : (2251799813685245 : ℚ) / 2 ^ 53 - 3602879701896397 / 2 ^ 56 = 14411518807585563 / 2 ^ 56 := by norm_num
  rw [harg]
  exact fl_eq _ _ (-3) 7205759403792782 (by norm_num) (by norm_num) (by norm_num)
    (by
      have harg2 : (14411518807585563 : ℚ) / 2 ^ 56 * 2 ^ ((52 : ℤ) - (-3)) = (7205759403792781 : ℚ) + 1/2 := by norm_num
      rw [harg2]
      have hr := roundHalfEven_tie_odd ((7205759403792781 : ℚ) + 1/2) 7205759403792781 (by decide) (by norm_num)
      rw [hr]
      norm_num
    )
    (by norm_num)

theorem jsScaleVal17 : jsScale 17 = 675539944105573 / 2 ^ 52 := by
  have hstep : jsScale 17 = fl (jsScale 16 - fl (1/20)) := rfl
  rw [hstep, jsScaleVal16, fl005_val]
  have harg : (3602879701896391 : ℚ) / 2 ^ 54 - 3602879701896397 / 2 ^ 56 = 10808639105689167 / 2 ^ 56 := by norm_num
  rw [harg]
  exact fl_eq _ _ (-3) 5404319552844584 (by norm_num) (by norm_num) (by norm_num)
    (by
      have harg2 : (10808639105689167 : ℚ) / 2 ^ 56 * 2 ^ ((52 : ℤ) - (-3)) = (5404319552844583 : ℚ) + 1/2 := by norm_num
      rw [harg2]
      have hr := roundHalfEven_tie_odd ((5404319552844583 : ℚ) + 1/2) 5404319552844583 (by decide) (by norm_num)
      rw [hr]
      norm_num
    )
    (by norm_num)

theorem jsScaleVal18 : jsScale 18 = 7205759403792771 / 2 ^ 56 := by
  have hstep : jsScale 18 = fl (jsScale 17 - fl (1/20)) := rfl
  rw [hstep, jsScaleVal17, fl005_val]
  have harg : (675539944105573 : ℚ) / 2 ^ 52 - 3602879701896397 / 2 ^ 56 = 7205759403792771 / 2 ^ 56 := by norm_num
  rw [harg]
  exact fl_eq _ _ (-4) 7205759403792771 (by norm_num) (by norm_num) (by norm_num)
    (by
      have harg2 : (7205759403792771 : ℚ) / 2 ^ 56 * 2 ^ ((52 : ℤ) - (-4)) = (7205759403792771 : ℚ) := by norm_num
      rw [harg2]
      exact roundHalfEven_lt _ 7205759403792771 (by norm_num) (by norm_num))
    (by norm_num)

/-- After 18 binary64 decrements the scale (0.09999999999999969…) is no
longer above the double 0.1, so the guard stops the loop. -/
theorem jsScale18_le_fl110 : jsScale 18 ≤ fl (1/10) := by
  rw [jsScaleVal18, fl110_val]
  norm_num

/-- Every scale the binary64 loop can use stays at or above its 18-step
value, which itself exceeds 0.099. -/
theorem jsScale_ge (k : Nat) (hk : k ≤ 18) :
    jsScale 18 ≤ jsScale k ∧ (99/1000 : ℚ) < jsScale k := by
  interval_cases k <;>
    rw [jsScaleVal18] <;>
    first
      | (rw [jsScaleVal0]; norm_num)
      | (rw [jsScaleVal1]; norm_num)
      | (rw [jsScaleVal2]; norm_num)
      | (rw [jsScaleVal3]; norm_num)
      | (rw [jsScaleVal4]; norm_num)
      | (rw [jsScaleVal5]; norm_num)
      | (rw [jsScaleVal6]; norm_num)
      | (rw [jsScaleVal7]; norm_num)
      | (rw [jsScaleVal8]; norm_num)
      | (rw [jsScaleVal9]; norm_num)
      | (rw [jsScaleVal10]; norm_num)
      | (rw [jsScaleVal11]; norm_num)
      | (rw [jsScaleVal12]; norm_num)
      | (rw [jsScaleVal13]; norm_num)
      | (rw [jsScaleVal14]; norm_num)
      | (rw [jsScaleVal15]; norm_num)
      | (rw [jsScaleVal16]; norm_num)
      | (rw [jsScaleVal17]; norm_num)
      | norm_num

/-- Fuel 18 suffices for the binary64 loop when started `k ≤ 18` steps
into the scale sequence with at least `18 - k` fuel: the guard fails no
later than `jsScale 18`. -/
theorem losslessSearchFl_isSome (B : Backend) (img : SourceImage) (t : ℚ) :
    ∀ (fuel k : Nat) (blob : List Nat) (trace : List EncodeCall),
    k ≤ 18 → 18 ≤ fuel + k →
    (losslessSearchFl B img t fuel (jsScale k) blob trace).isSome := by
  intro fuel
  induction fuel with
  | zero =>
    intro k blob trace hk hfk
    have hk18 : k = 18 := by omega
    subst hk18
    rw [losslessSearchFl]
    split
    · next hcond =>
      exact absurd hcond.2 (not_lt.mpr jsScale18_le_fl110)
    · simp
  | succ n ih =>
    intro k blob trace hk hfk
    rw [losslessSearchFl]
    split
    · next hcond =>
      rcases Nat.lt_or_ge k 18 with hlt | hge
      · exact ih (k + 1) _ _ (by omega) (by omega)
      · have hk18 : k = 18 := by omega
        subst hk18
        exact absurd hcond.2 (not_lt.mpr jsScale18_le_fl110)
    · simp

/-- `processImage` with the lossless path's scale arithmetic taken as
IEEE-754 binary64 (the `Fl` loop); the decode dispatch and the lossy
branch are unchanged from `processImage`, whose quality arithmetic is
float-exact. -/
def processImageFl (B : Backend) (fileBytes : List Nat) (targetSizeKB : ℚ)
    (targetFormat : TargetFormat) :
    Except ProcessError ProcResult × List EncodeCall :=
  let targetSizeBytes := targetSizeKB * 1024
  match B.decode fileBytes with
  | none => (Except.error ProcessError.decodeError, [])
  | some img =>
    let canvas0 : Canvas := ⟨img.width, img.height, img.pixels⟩
    if targetFormat = TargetFormat.png then
      let currentBlob := getCanvasBlob B canvas0 TargetFormat.png 1
      let trace0 : List EncodeCall :=
        [⟨TargetFormat.png, 1, canvas0.content, canvas0.width, canvas0.height⟩]
      let r := (losslessSearchFl B img targetSizeBytes 18 (jsScale 0) currentBlob trace0).get
        (losslessSearchFl_isSome B img targetSizeBytes 18 0 currentBlob trace0
          (by omega) (by omega))
      (Except.ok ⟨r.2.1, (r.2.1.length : ℚ) / 1024⟩, r.2.2)
    else
      let res := lossySearch B targetFormat canvas0 targetSizeBytes 10 0 1 none []
      let minQuality := res.1
      let bestBlob := res.2.2.1
      let trace := res.2.2.2
      match bestBlob with
      | some blob => (Except.ok ⟨blob, (blob.length : ℚ) / 1024⟩, trace)
      | none =>
        let fallbackBlob := getCanvasBlob B canvas0 targetFormat minQuality
        let trace' := trace ++
          [⟨targetFormat, minQuality, canvas0.content, canvas0.width, canvas0.height⟩]
        if targetSizeKB * 1024 * (6/5) < (fallbackBlob.length : ℚ) then
          (Except.error ProcessError.unreachableBudget, trace')
        else
          (Except.ok ⟨fallbackBlob, (fallbackBlob.length : ℚ) / 1024⟩, trace')

/-! ## Lemmas about the lossy quality search -/

theorem lossySearch_eq_spec (B : Backend) (fmt : TargetFormat) (cv : Canvas) (t : ℚ) :
    ∀ (n : Nat) (mn mx : ℚ) (best : Option (List Nat)) (tr : List EncodeCall),
    lossySearch B fmt cv t n mn mx best tr =
      (((specLossyStep (canvasEnc B cv fmt) t)^[n] (mn, mx, best)).1,
       ((specLossyStep (canvasEnc B cv fmt) t)^[n] (mn, mx, best)).2.1,
       ((specLossyStep (canvasEnc B cv fmt) t)^[n] (mn, mx, best)).2.2,
       tr ++ lossyTrace B cv fmt t n (mn, mx, best)) := by
  intro n
  induction n with
  | zero =>
    intro mn mx best tr
    simp [lossySearch, lossyTrace]
  | succ n ih =>
    intro mn mx best tr
    rw [Function.iterate_succ_apply, lossyTrace]
    by_cases h : ((getCanvasBlob B cv fmt ((mn + mx) / 2)).length : ℚ) ≤ t
    · rw [lossySearch]
      simp only [h, if_pos]
      rw [ih]
      have hs : specLossyStep (canvasEnc B cv fmt) t (mn, mx, best) =
          ((mn + mx) / 2, mx, some (getCanvasBlob B cv fmt ((mn + mx) / 2))) := by
        simp [specLossyStep, canvasEnc, h]
      rw [hs]
      simp [midQuality, List.append_assoc]
    · rw [lossySearch]
      simp only [h, if_neg, not_false_iff]
      rw [ih]
      have hs : specLossyStep (canvasEnc B cv fmt) t (mn, mx, best) =
          (mn, (mn + mx) / 2, best) := by
        simp [specLossyStep, canvasEnc, h]
      rw [hs]
      simp [midQuality, List.append_assoc]

theorem lossyTrace_length (B : Backend) (cv : Canvas) (fmt : TargetFormat) (t : ℚ) :
    ∀ (n : Nat) (s : ℚ × ℚ × Option (List Nat)),
    (lossyTrace B cv fmt t n s).length = n := by
  intro n
  induction n with
  | zero => intro s; simp [lossyTrace]
  | succ n ih => intro s; simp [lossyTrace, ih]

theorem lossyTrace_get (B : Backend) (cv : Canvas) (fmt : TargetFormat) (t : ℚ) :
    ∀ (n k : Nat) (s : ℚ × ℚ × Option (List Nat)), k < n →
    (lossyTrace B cv fmt t n s).get? k =
      some ⟨fmt, midQuality ((specLossyStep (canvasEnc B cv fmt) t)^[k] s),
        cv.content, cv.width, cv.height⟩ := by
  intro n
  induction n with
  | zero => intro k s hk; omega
  | succ n ih =>
    intro k s hk
    cases k with
    | zero => simp [lossyTrace]
    | succ k =>
      rw [lossyTrace]
      simp only [List.get?_cons_succ]
      rw [ih k _ (by omega), Function.iterate_succ_apply]

theorem midQuality_pos (s : ℚ × ℚ × Option (List Nat)) (h : LossyInv s) :
    0 < midQuality s ∧ midQuality s < 1 := by
  obtain ⟨h0, hlt, h1⟩ := h
  unfold midQuality
  constructor <;> linarith

theorem specLossyStep_inv (enc : ℚ → List Nat) (t : ℚ)
    (s : ℚ × ℚ × Option (List Nat)) (h : LossyInv s) :
    LossyInv (specLossyStep enc t s) := by
  obtain ⟨h0, hlt, h1⟩ := h
  unfold LossyInv
  simp only [specLossyStep]
  split <;> refine ⟨by simp; linarith, by simp; linarith, by simp; linarith⟩

theorem specLossyState_inv (enc : ℚ → List Nat) (t : ℚ) (k : Nat) :
    LossyInv (specLossyState enc t k) := by
  induction k with
  | zero =>
    simp only [specLossyState, Function.iterate_zero, id]
    exact ⟨le_refl 0, by norm_num, by norm_num⟩
  | succ k ih =>
    simp only [specLossyState, Function.iterate_succ_apply'] at ih ⊢
    exact specLossyStep_inv _ _ _ ih

theorem specLossyStep_bestSound (enc : ℚ → List Nat) (t : ℚ)
    (s : ℚ × ℚ × Option (List Nat)) (hinv : LossyInv s) (h : BestSound enc t s) :
    BestSound enc t (specLossyStep enc t s) := by
  have hmid := midQuality_pos s hinv
  simp only [specLossyStep]
  split
  · next hfit =>
    intro b hb
    simp only at hb
    have hbe : enc ((s.1 + s.2.1) / 2) = b := Option.some_inj.mp hb
    refine ⟨midQuality s, hmid.1, hmid.2, hbe.symm, ?_⟩
    rw [← hbe]
    exact hfit
  · next hfit =>
    intro b hb
    exact h b hb

theorem specLossyState_bestSound (enc : ℚ → List Nat) (t : ℚ) (k : Nat) :
    BestSound enc t (specLossyState enc t k) := by
  induction k with
  | zero =>
    intro b hb
    simp [specLossyState] at hb
  | succ k ih =>
    simp only [specLossyState, Function.iterate_succ_apply'] at ih ⊢
    exact specLossyStep_bestSound _ _ _ (by
      have := specLossyState_inv enc t k
      simpa [specLossyState] using this) ih

/-- One spec step keeps `best = none` exactly when it was `none` before and
the tested quality's blob overshoots the budget. -/
theorem specLossyStep_best_none (enc : ℚ → List Nat) (t : ℚ)
    (s : ℚ × ℚ × Option (List Nat)) :
    (specLossyStep enc t s).2.2 = none ↔
      s.2.2 = none ∧ t < ((enc (midQuality s)).length : ℚ) := by
  unfold midQuality
  simp only [specLossyStep]
  split
  · next hfit => simp [hfit, not_lt.mpr hfit]
  · next hfit => simp [lt_of_not_le hfit]

/-- `best = none` after `k` iterations iff every tested quality so far
produced a blob over the budget. -/
theorem specLossyState_best_none (enc : ℚ → List Nat) (t : ℚ) (k : Nat) :
    (specLossyState enc t k).2.2 = none ↔
      ∀ j, j < k → t < ((enc (midQuality (specLossyState enc t j))).length : ℚ) := by
  induction k with
  | zero => simp [specLossyState]
  | succ k ih =>
    rw [specLossyState, Function.iterate_succ_apply',
      ← specLossyState, specLossyStep_best_none, ih]
    constructor
    · rintro ⟨hall, hk⟩ j hj
      rcases Nat.lt_succ_iff_lt_or_eq.mp hj with h | h
      · exact hall j h
      · rw [h]; exact hk
    · intro hall
      exact ⟨fun j hj => hall j (Nat.lt_succ_of_lt hj), hall k (Nat.lt_succ_self k)⟩

/-- While `best` stays `none`, `minQuality` is never raised. -/
theorem specLossyState_min_of_best_none (enc : ℚ → List Nat) (t : ℚ) (k : Nat)
    (h : (specLossyState enc t k).2.2 = none) :
    (specLossyState enc t k).1 = 0 := by
  induction k with
  | zero => simp [specLossyState]
  | succ k ih =>
    rw [specLossyState, Function.iterate_succ_apply', ← specLossyState] at h ⊢
    have hnone := (specLossyStep_best_none _ _ _).mp h
    have hmin : (specLossyStep enc t (specLossyState enc t k)).1 =
        (specLossyState enc t k).1 := by
      simp only [specLossyStep]
      split
      · next hfit => exact absurd hfit (not_le.mpr hnone.2)
      · rfl
    rw [hmin, ih hnone.1]

/-! ## Lemmas about the lossless dimension search -/

theorem losslessState_scale (B : Backend) (img : SourceImage) :
    ∀ (k : Nat) (scale : ℚ) (blob : List Nat),
    (losslessState B img scale blob k).1 = scale - k / 20 := by
  intro k
  induction k with
  | zero => intro scale blob; simp [losslessState]
  | succ k ih =>
    intro scale blob
    rw [losslessState, ih]
    push_cast
    ring

theorem losslessState_blob (B : Backend) (img : SourceImage) :
    ∀ (k : Nat) (scale : ℚ) (blob : List Nat), 1 ≤ k →
    (losslessState B img scale blob k).2 =
      losslessEncodeAt B img (scale - k / 20) := by
  intro k
  induction k with
  | zero => intro scale blob h; omega
  | succ k ih =>
    intro scale blob _
    rw [losslessState]
    cases k with
    | zero => simp [losslessState]
    | succ m =>
      rw [ih _ _ (by omega)]
      congr 1
      push_cast
      ring

theorem losslessTraceK_length (B : Backend) (img : SourceImage) :
    ∀ (k : Nat) (scale : ℚ), (losslessTraceK B img scale k).length = k := by
  intro k
  induction k with
  | zero => intro scale; simp [losslessTraceK]
  | succ k ih => intro scale; simp [losslessTraceK, ih]

theorem losslessTraceK_mem (B : Backend) (img : SourceImage) :
    ∀ (k : Nat) (scale : ℚ) (c : EncodeCall), c ∈ losslessTraceK B img scale k →
    ∃ j : Nat, 1 ≤ j ∧ j ≤ k ∧ c = losslessCall B img (scale - j / 20) := by
  intro k
  induction k with
  | zero => intro scale c hc; simp [losslessTraceK] at hc
  | succ k ih =>
    intro scale c hc
    rw [losslessTraceK] at hc
    rcases List.mem_cons.mp hc with h | h
    · exact ⟨1, le_refl 1, by omega, by rw [h]; norm_num⟩
    · obtain ⟨j, hj1, hjk, hc⟩ := ih _ c h
      refine ⟨j + 1, by omega, by omega, ?_⟩
      rw [hc]
      congr 1
      push_cast
      ring

theorem losslessTraceK_getLast (B : Backend) (img : SourceImage) :
    ∀ (k : Nat) (scale : ℚ), 1 ≤ k →
    (losslessTraceK B img scale k).getLast? =
      some (losslessCall B img (scale - k / 20)) := by
  intro k
  induction k with
  | zero => intro scale h; omega
  | succ k ih =>
    intro scale _
    rw [losslessTraceK]
    cases k with
    | zero => simp [losslessTraceK]
    | succ m =>
      rw [List.getLast?_cons, ih _ (by omega)]
      simp only [Option.getD_some]
      congr 1
      push_cast
      ring

/-- Characterization of a terminating run of the lossless loop: it runs
exactly `K ≤ fuel` iterations, where the guard held before each of them
and fails at the final state; the result is the `K`-step state and the
trace extends the input trace with the `K` recorded encode calls. -/
theorem losslessSearch_some_eq (B : Backend) (img : SourceImage) (t : ℚ) :
    ∀ (fuel : Nat) (scale : ℚ) (blob : List Nat) (tr : List EncodeCall)
      (s : ℚ) (b2 : List Nat) (tr2 : List EncodeCall),
    losslessSearch B img t fuel scale blob tr = some (s, b2, tr2) →
    ∃ K : Nat, K ≤ fuel ∧
      (s, b2) = losslessState B img scale blob K ∧
      tr2 = tr ++ losslessTraceK B img scale K ∧
      (∀ j, j < K → LosslessCond t (losslessState B img scale blob j)) ∧
      ¬ LosslessCond t (losslessState B img scale blob K) := by
  intro fuel
  induction fuel with
  | zero =>
    intro scale blob tr s b2 tr2 heq
    rw [losslessSearch] at heq
    split at heq
    · exact absurd heq (by simp)
    · next hcond =>
      refine ⟨0, le_refl 0, ?_, ?_, ?_, ?_⟩
      · simpa [losslessState] using (congrArg (fun x => (x.1, x.2.1)) (Option.some_inj.mp heq)).symm
      · simpa [losslessTraceK] using (congrArg (fun x => x.2.2) (Option.some_inj.mp heq)).symm
      · intro j hj; omega
      · simpa [losslessState, LosslessCond] using hcond
  | succ n ih =>
    intro scale blob tr s b2 tr2 heq
    rw [losslessSearch] at heq
    split at heq
    · next hcond =>
      simp only at heq
      obtain ⟨K, hK, hstate, htrace, hguard, hstop⟩ := ih _ _ _ _ _ _ heq
      refine ⟨K + 1, by omega, ?_, ?_, ?_, ?_⟩
      · rw [losslessState]
        exact hstate
      · rw [htrace, losslessTraceK, List.append_assoc]
        simp
      · intro j hj
        cases j with
        | zero =>
          simpa [losslessState, LosslessCond] using hcond
        | succ j =>
          rw [losslessState]
          exact hguard j (by omega)
      · rw [losslessState]
        exact hstop
    · next hcond =>
      refine ⟨0, by omega, ?_, ?_, ?_, ?_⟩
      · simpa [losslessState] using (congrArg (fun x => (x.1, x.2.1)) (Option.some_inj.mp heq)).symm
      · simpa [losslessTraceK] using (congrArg (fun x => x.2.2) (Option.some_inj.mp heq)).symm
      · intro j hj; omega
      · simpa [losslessState, LosslessCond] using hcond

/-! ## Unfolding lemmas for `processImage` -/

theorem processImage_decode_none (B : Backend) (fb : List Nat) (kb : ℚ)
    (fmt : TargetFormat) (hdec : B.decode fb = none) :
    processImage B fb kb fmt = (Except.error ProcessError.decodeError, []) := by
  unfold processImage
  rw [hdec]

theorem processImage_png_eq (B : Backend) (fb : List Nat) (kb : ℚ)
    (img : SourceImage) (hdec : B.decode fb = some img)
    (s : ℚ) (b2 : List Nat) (tr2 : List EncodeCall)
    (hsearch : losslessSearch B img (kb * 1024) 18 1
      (getCanvasBlob B ⟨img.width, img.height, img.pixels⟩ TargetFormat.png 1)
      [⟨TargetFormat.png, 1, img.pixels, img.width, img.height⟩] = some (s, b2, tr2)) :
    processImage B fb kb TargetFormat.png =
      (Except.ok ⟨b2, (b2.length : ℚ) / 1024⟩, tr2) := by
  unfold processImage
  rw [hdec]
  simp only [if_pos rfl]
  simp only [hsearch, Option.get_some, if_true]

theorem processImage_lossy_some (B : Backend) (fb : List Nat) (kb : ℚ)
    (fmt : TargetFormat) (img : SourceImage) (hfmt : fmt ≠ TargetFormat.png)
    (hdec : B.decode fb = some img) (blob : List Nat)
    (hbest : (lossySearch B fmt ⟨img.width, img.height, img.pixels⟩ (kb * 1024)
      10 0 1 none []).2.2.1 = some blob) :
    processImage B fb kb fmt =
      (Except.ok ⟨blob, (blob.length : ℚ) / 1024⟩,
       (lossySearch B fmt ⟨img.width, img.height, img.pixels⟩ (kb * 1024)
         10 0 1 none []).2.2.2) := by
  unfold processImage
  rw [hdec]
  simp only [if_neg hfmt, hbest]

theorem processImage_lossy_none (B : Backend) (fb : List Nat) (kb : ℚ)
    (fmt : TargetFormat) (img : SourceImage) (hfmt : fmt ≠ TargetFormat.png)
    (hdec : B.decode fb = some img)
    (hbest : (lossySearch B fmt ⟨img.width, img.height, img.pixels⟩ (kb * 1024)
      10 0 1 none []).2.2.1 = none) :
    processImage B fb kb fmt =
      (let res := lossySearch B fmt ⟨img.width, img.height, img.pixels⟩ (kb * 1024)
         10 0 1 none []
       let fallbackBlob := getCanvasBlob B ⟨img.width, img.height, img.pixels⟩ fmt res.1
       let tr := res.2.2.2 ++ [⟨fmt, res.1, img.pixels, img.width, img.height⟩]
       if kb * 1024 * (6/5) < (fallbackBlob.length : ℚ) then
         (Except.error ProcessError.unreachableBudget, tr)
       else
         (Except.ok ⟨fallbackBlob, (fallbackBlob.length : ℚ) / 1024⟩, tr)) := by
  unfold processImage
  rw [hdec]
  simp only [if_neg hfmt, hbest]

/-- Membership form of `lossyTrace_get`: every recorded call is the
midpoint-quality call of some earlier state. -/
theorem lossyTrace_mem (B : Backend) (cv : Canvas) (fmt : TargetFormat) (t : ℚ) :
    ∀ (n : Nat) (s : ℚ × ℚ × Option (List Nat)) (c : EncodeCall),
    c ∈ lossyTrace B cv fmt t n s →
    ∃ k : Nat, k < n ∧
      c = ⟨fmt, midQuality ((specLossyStep (canvasEnc B cv fmt) t)^[k] s),
        cv.content, cv.width, cv.height⟩ := by
  intro n
  induction n with
  | zero => intro s c hc; simp [lossyTrace] at hc
  | succ n ih =>
    intro s c hc
    rw [lossyTrace] at hc
    rcases List.mem_cons.mp hc with h | h
    · exact ⟨0, by omega, by simpa using h⟩
    · obtain ⟨k, hk, hc⟩ := ih _ c h
      exact ⟨k + 1, by omega, by rw [hc, Function.iterate_succ_apply]⟩

/-- Every successful `processImage` result reports
`finalSizeKB = blob bytes / 1024`. -/
theorem processImage_finalSizeKB (B : Backend) (fb : List Nat) (kb : ℚ)
    (fmt : TargetFormat) (r : ProcResult) (tr : List EncodeCall)
    (h : processImage B fb kb fmt = (Except.ok r, tr)) :
    r.finalSizeKB = (r.blob.length : ℚ) / 1024 := by
  cases hdec : B.decode fb with
  | none =>
    rw [processImage_decode_none B fb kb fmt hdec] at h
    exact absurd (congrArg Prod.fst h) (by simp)
  | some img =>
    by_cases hfmt : fmt = TargetFormat.png
    · subst hfmt
      have hsome := losslessSearch_isSome B img (kb * 1024) 18 1
        (getCanvasBlob B ⟨img.width, img.height, img.pixels⟩ TargetFormat.png 1)
        [⟨TargetFormat.png, 1, img.pixels, img.width, img.height⟩]
        (by norm_num [scaleFuel])
      obtain ⟨⟨s, b2, tr2⟩, hx⟩ := Option.isSome_iff_exists.mp hsome
      rw [processImage_png_eq B fb kb img hdec s b2 tr2 hx] at h
      have hr := congrArg Prod.fst h
      simp only [Except.ok.injEq] at hr
      rw [← hr]
    · cases hbest : (lossySearch B fmt ⟨img.width, img.height, img.pixels⟩
        (kb * 1024) 10 0 1 none []).2.2.1 with
      | some blob =>
        rw [processImage_lossy_some B fb kb fmt img hfmt hdec blob hbest] at h
        have hr := congrArg Prod.fst h
        simp only [Except.ok.injEq] at hr
        rw [← hr]
      | none =>
        rw [processImage_lossy_none B fb kb fmt img hfmt hdec hbest] at h
        simp only at h
        split at h
        · exact absurd (congrArg Prod.fst h) (by simp)
        · have hr := congrArg Prod.fst h
          simp only [Except.ok.injEq] at hr
          rw [← hr]

/-- On `bigBackend` (every encode is 1300 bytes) no attempt fits a 1 KB
budget, so the binary search ends with no best blob. -/
theorem bigBackend_best_none :
    (lossySearch bigBackend TargetFormat.jpeg ⟨2, 2, [7]⟩ (1 * 1024)
      10 0 1 none []).2.2.1 = none := by
  rw [lossySearch_eq_spec]
  show (specLossyState (canvasEnc bigBackend ⟨2, 2, [7]⟩ TargetFormat.jpeg)
    (1 * 1024) 10).2.2 = none
  rw [specLossyState_best_none]
  intro j hj
  show (1 * 1024 : ℚ) < ((List.replicate 1300 (0 : Nat)).length : ℚ)
  rw [List.length_replicate]
  norm_num

theorem bigBackend_fallback_over :
    1 * 1024 * (6/5) <
      ((getCanvasBlob bigBackend ⟨2, 2, [7]⟩ TargetFormat.jpeg
        (lossySearch bigBackend TargetFormat.jpeg ⟨2, 2, [7]⟩ (1 * 1024)
          10 0 1 none []).1).length : ℚ) := by
  show (1 * 1024 * (6/5) : ℚ) < ((List.replicate 1300 (0 : Nat)).length : ℚ)
  rw [List.length_replicate]
  norm_num

/-! ## The claims -/

/-- **C7.** For every input whose bytes do not decode to a valid image,
`processImage` fails with a `DecodeError` and performs no encode attempts
(the decode failure propagates before any encoder call is made). -/
theorem claim_C7_decode_error_no_encodes (B : Backend) (fb : List Nat) (kb : ℚ)
    (fmt : TargetFormat) (hdec : B.decode fb = none) :
    (processImage B fb kb fmt).1 = Except.error ProcessError.decodeError ∧
    (processImage B fb kb fmt).2 = [] := by
  rw [processImage_decode_none B fb kb fmt hdec]
  exact ⟨rfl, rfl⟩

theorem claim_C7_witness :
    (processImage noneBackend [1, 2, 3] 100 TargetFormat.jpeg).1 =
      Except.error ProcessError.decodeError ∧
    (processImage noneBackend [1, 2, 3] 100 TargetFormat.jpeg).2 = [] :=
  claim_C7_decode_error_no_encodes noneBackend [1, 2, 3] 100 TargetFormat.jpeg rfl

/-- **C8.** `processImage` is deterministic: over the pure backend, two
runs with identical input bytes, target size and codec yield identical
results (bytes and reported size) and identical encode traces. -/
theorem claim_C8_deterministic (B : Backend) (fb : List Nat) (kb : ℚ)
    (fmt : TargetFormat) (r₁ r₂ : Except ProcessError ProcResult)
    (tr₁ tr₂ : List EncodeCall)
    (h₁ : processImage B fb kb fmt = (r₁, tr₁))
    (h₂ : processImage B fb kb fmt = (r₂, tr₂)) :
    r₁ = r₂ ∧ tr₁ = tr₂ := by
  have h := h₁.symm.trans h₂
  exact ⟨congrArg Prod.fst h, congrArg Prod.snd h⟩

theorem claim_C8_witness :
    (processImage bigBackend [0] 1 TargetFormat.jpeg).1 =
      (processImage bigBackend [0] 1 TargetFormat.jpeg).1 ∧
    (processImage bigBackend [0] 1 TargetFormat.jpeg).2 =
      (processImage bigBackend [0] 1 TargetFormat.jpeg).2 :=
  claim_C8_deterministic bigBackend [0] 1 TargetFormat.jpeg _ _ _ _ rfl rfl

/-- **C1.** For every quality-capable (lossy) codec input, `processImage`
runs exactly 10 binary-search iterations with pixel dimensions fixed at
the source's intrinsic size; each iteration tests
`quality = (minQuality + maxQuality) / 2` starting from `minQuality = 0`
and `maxQuality = 1`, fitting attempts become `best` and raise
`minQuality`, others lower `maxQuality` (the loop state equals the spec
recurrence `specLossyState`); if `best` exists after the loop it is
returned. -/
theorem claim_C1_lossy_binary_search (B : Backend) (fb : List Nat) (kb : ℚ)
    (fmt : TargetFormat) (img : SourceImage)
    (hfmt : fmt ≠ TargetFormat.png) (hdec : B.decode fb = some img) :
    (lossySearch B fmt ⟨img.width, img.height, img.pixels⟩ (kb * 1024)
        10 0 1 none []).2.2.2.length = 10 ∧
    (∀ k, k < 10 →
      (lossySearch B fmt ⟨img.width, img.height, img.pixels⟩ (kb * 1024)
          10 0 1 none []).2.2.2.get? k =
        some ⟨fmt,
          midQuality (specLossyState
            (canvasEnc B ⟨img.width, img.height, img.pixels⟩ fmt) (kb * 1024) k),
          img.pixels, img.width, img.height⟩) ∧
    ((lossySearch B fmt ⟨img.width, img.height, img.pixels⟩ (kb * 1024)
        10 0 1 none []).1,
     (lossySearch B fmt ⟨img.width, img.height, img.pixels⟩ (kb * 1024)
        10 0 1 none []).2.1,
     (lossySearch B fmt ⟨img.width, img.height, img.pixels⟩ (kb * 1024)
        10 0 1 none []).2.2.1) =
      specLossyState (canvasEnc B ⟨img.width, img.height, img.pixels⟩ fmt)
        (kb * 1024) 10 ∧
    (∀ blob,
      (specLossyState (canvasEnc B ⟨img.width, img.height, img.pixels⟩ fmt)
        (kb * 1024) 10).2.2 = some blob →
      processImage B fb kb fmt =
        (Except.ok ⟨blob, (blob.length : ℚ) / 1024⟩,
         (lossySearch B fmt ⟨img.width, img.height, img.pixels⟩ (kb * 1024)
           10 0 1 none []).2.2.2)) := by
  have hres := lossySearch_eq_spec B fmt ⟨img.width, img.height, img.pixels⟩
    (kb * 1024) 10 0 1 none []
  refine ⟨?_, ?_, ?_, ?_⟩
  · rw [hres]
    simp [lossyTrace_length]
  · intro k hk
    rw [hres]
    simp only [List.nil_append]
    rw [lossyTrace_get B _ fmt (kb * 1024) 10 k (0, 1, none) hk]
    rfl
  · rw [hres]
    rfl
  · intro blob hblob
    have hbest : (lossySearch B fmt ⟨img.width, img.height, img.pixels⟩
        (kb * 1024) 10 0 1 none []).2.2.1 = some blob := by
      rw [hres]
      exact hblob
    exact processImage_lossy_some B fb kb fmt img hfmt hdec blob hbest

theorem claim_C1_witness :
    (lossySearch bigBackend TargetFormat.jpeg ⟨2, 2, [7]⟩ (1 * 1024)
        10 0 1 none []).2.2.2.length = 10 := by
  have h := claim_C1_lossy_binary_search bigBackend [0] 1 TargetFormat.jpeg
    ⟨2, 2, [7]⟩ (by decide) rfl
  exact h.1

/-- **C6.** Throughout the lossy binary-search loop the invariant
`0 ≤ minQuality < maxQuality ≤ 1` is preserved by every iteration, every
quality passed to the encoder during the loop is strictly between 0
and 1, and a successful (non-fallback) best blob was encoded at a
quality strictly between 0 and 1. -/
theorem claim_C6_quality_strictly_between (B : Backend) (fb : List Nat) (kb : ℚ)
    (fmt : TargetFormat) (img : SourceImage)
    (_hfmt : fmt ≠ TargetFormat.png) (_hdec : B.decode fb = some img) :
    (∀ n : Nat,
      0 ≤ (lossySearch B fmt ⟨img.width, img.height, img.pixels⟩ (kb * 1024)
        n 0 1 none []).1 ∧
      (lossySearch B fmt ⟨img.width, img.height, img.pixels⟩ (kb * 1024)
        n 0 1 none []).1 <
        (lossySearch B fmt ⟨img.width, img.height, img.pixels⟩ (kb * 1024)
          n 0 1 none []).2.1 ∧
      (lossySearch B fmt ⟨img.width, img.height, img.pixels⟩ (kb * 1024)
        n 0 1 none []).2.1 ≤ 1) ∧
    (∀ n : Nat, ∀ c ∈ (lossySearch B fmt ⟨img.width, img.height, img.pixels⟩
        (kb * 1024) n 0 1 none []).2.2.2,
      0 < c.quality ∧ c.quality < 1) ∧
    (∀ blob,
      (lossySearch B fmt ⟨img.width, img.height, img.pixels⟩ (kb * 1024)
        10 0 1 none []).2.2.1 = some blob →
      ∃ q, 0 < q ∧ q < 1 ∧
        blob = canvasEnc B ⟨img.width, img.height, img.pixels⟩ fmt q) := by
  refine ⟨?_, ?_, ?_⟩
  · intro n
    rw [lossySearch_eq_spec B fmt ⟨img.width, img.height, img.pixels⟩
      (kb * 1024) n 0 1 none []]
    exact specLossyState_inv
      (canvasEnc B ⟨img.width, img.height, img.pixels⟩ fmt) (kb * 1024) n
  · intro n c hc
    rw [lossySearch_eq_spec B fmt ⟨img.width, img.height, img.pixels⟩
      (kb * 1024) n 0 1 none []] at hc
    simp only [List.nil_append] at hc
    obtain ⟨k, hk, hckind⟩ := lossyTrace_mem B _ fmt (kb * 1024) n (0, 1, none) c hc
    have hinv := specLossyState_inv
      (canvasEnc B ⟨img.width, img.height, img.pixels⟩ fmt) (kb * 1024) k
    have hbound := midQuality_pos _ hinv
    rw [hckind]
    exact hbound
  · intro blob hblob
    rw [lossySearch_eq_spec B fmt ⟨img.width, img.height, img.pixels⟩
      (kb * 1024) 10 0 1 none []] at hblob
    obtain ⟨q, hq0, hq1, hqe, _⟩ := specLossyState_bestSound
      (canvasEnc B ⟨img.width, img.height, img.pixels⟩ fmt) (kb * 1024) 10
      blob hblob
    exact ⟨q, hq0, hq1, hqe⟩

theorem claim_C6_witness :
    0 ≤ (lossySearch bigBackend TargetFormat.jpeg ⟨2, 2, [7]⟩ (1 * 1024)
      10 0 1 none []).1 := by
  have h := claim_C6_quality_strictly_between bigBackend [0] 1 TargetFormat.jpeg
    ⟨2, 2, [7]⟩ (by decide) rfl
  exact (h.1 10).1

/-- **C2.** A successful lossy result either fits the byte budget, or —
only when no attempt during the 10 iterations fit — is the single
fallback encode at the final `minQuality`, within the 20% tolerance band;
a fallback overshooting `targetBytes * 1.2` makes `processImage` fail
with `UnreachableBudget` instead of returning. -/
theorem claim_C2_lossy_budget_tolerance (B : Backend) (fb : List Nat) (kb : ℚ)
    (fmt : TargetFormat) (img : SourceImage)
    (hfmt : fmt ≠ TargetFormat.png) (hdec : B.decode fb = some img) :
    (∀ r tr, processImage B fb kb fmt = (Except.ok r, tr) →
      ((r.blob.length : ℚ) ≤ kb * 1024 ∨
       ((lossySearch B fmt ⟨img.width, img.height, img.pixels⟩ (kb * 1024)
           10 0 1 none []).2.2.1 = none ∧
        r.blob = getCanvasBlob B ⟨img.width, img.height, img.pixels⟩ fmt
          (lossySearch B fmt ⟨img.width, img.height, img.pixels⟩ (kb * 1024)
            10 0 1 none []).1 ∧
        (r.blob.length : ℚ) ≤ kb * 1024 * (6/5)))) ∧
    ((lossySearch B fmt ⟨img.width, img.height, img.pixels⟩ (kb * 1024)
        10 0 1 none []).2.2.1 = none →
      kb * 1024 * (6/5) <
        ((getCanvasBlob B ⟨img.width, img.height, img.pixels⟩ fmt
          (lossySearch B fmt ⟨img.width, img.height, img.pixels⟩ (kb * 1024)
            10 0 1 none []).1).length : ℚ) →
      (processImage B fb kb fmt).1 = Except.error ProcessError.unreachableBudget) := by
  constructor
  · intro r tr h
    cases hbest : (lossySearch B fmt ⟨img.width, img.height, img.pixels⟩
        (kb * 1024) 10 0 1 none []).2.2.1 with
    | some blob =>
      left
      rw [processImage_lossy_some B fb kb fmt img hfmt hdec blob hbest] at h
      have hr := congrArg Prod.fst h
      simp only [Except.ok.injEq] at hr
      have hfit : ((blob.length : ℚ)) ≤ kb * 1024 := by
        have heq := lossySearch_eq_spec B fmt ⟨img.width, img.height, img.pixels⟩
          (kb * 1024) 10 0 1 none []
        rw [heq] at hbest
        obtain ⟨_, _, _, _, hle⟩ := specLossyState_bestSound
          (canvasEnc B ⟨img.width, img.height, img.pixels⟩ fmt) (kb * 1024) 10
          blob hbest
        exact hle
      rw [← hr]
      exact hfit
    | none =>
      rw [processImage_lossy_none B fb kb fmt img hfmt hdec hbest] at h
      simp only at h
      split at h
      · exact absurd (congrArg Prod.fst h) (by simp)
      · next hover =>
        right
        have hr := congrArg Prod.fst h
        simp only [Except.ok.injEq] at hr
        refine ⟨rfl, ?_, ?_⟩
        · rw [← hr]
        · rw [← hr]
          exact le_of_not_lt hover
  · intro hbest hover
    rw [processImage_lossy_none B fb kb fmt img hfmt hdec hbest]
    simp only [if_pos hover]

theorem claim_C2_witness :
    (processImage bigBackend [0] 1 TargetFormat.jpeg).1 =
      Except.error ProcessError.unreachableBudget :=
  (claim_C2_lossy_budget_tolerance bigBackend [0] 1 TargetFormat.jpeg
    ⟨2, 2, [7]⟩ (by decide) rfl).2 bigBackend_best_none bigBackend_fallback_over

/-- **C5 (counterexample).** On a backend where no quality fits, the run
makes 11 encode calls (10 search iterations plus the fallback), so the
claimed worst-case bound of exactly 10 encode calls is false. -/
theorem claim_C5_counterexample :
    (processImage bigBackend [0] 1 TargetFormat.jpeg).2.length = 11 ∧
    10 < (processImage bigBackend [0] 1 TargetFormat.jpeg).2.length := by
  have h11 : (processImage bigBackend [0] 1 TargetFormat.jpeg).2.length = 11 := by
    rw [processImage_lossy_none bigBackend [0] 1 TargetFormat.jpeg ⟨2, 2, [7]⟩
      (by decide) rfl bigBackend_best_none]
    simp only
    rw [if_pos bigBackend_fallback_over]
    simp only [List.length_append, List.length_singleton]
    rw [lossySearch_eq_spec]
    simp [lossyTrace_length]
  exact ⟨h11, by omega⟩

/-- **C5 (amended).** For every lossy-codec invocation the number of
encode calls made by `processImage` is bounded by 11 in the worst case:
the 10 binary-search encodes plus at most one fallback encode. -/
theorem claim_C5_amended_encode_bound (B : Backend) (fb : List Nat) (kb : ℚ)
    (fmt : TargetFormat) (hfmt : fmt ≠ TargetFormat.png) :
    (processImage B fb kb fmt).2.length ≤ 11 := by
  cases hdec : B.decode fb with
  | none =>
    rw [processImage_decode_none B fb kb fmt hdec]
    simp
  | some img =>
    cases hbest : (lossySearch B fmt ⟨img.width, img.height, img.pixels⟩
        (kb * 1024) 10 0 1 none []).2.2.1 with
    | some blob =>
      rw [processImage_lossy_some B fb kb fmt img hfmt hdec blob hbest]
      simp only
      rw [lossySearch_eq_spec]
      simp [lossyTrace_length]
    | none =>
      rw [processImage_lossy_none B fb kb fmt img hfmt hdec hbest]
      simp only
      split <;>
      · simp only [List.length_append, List.length_singleton]
        rw [lossySearch_eq_spec]
        simp [lossyTrace_length]

theorem claim_C5_amended_witness :
    (processImage bigBackend [0] 1 TargetFormat.jpeg).2.length ≤ 11 :=
  claim_C5_amended_encode_bound bigBackend [0] 1 TargetFormat.jpeg (by decide)

/-- **C10.** If no attempt during the 10 lossy iterations fits the
budget, `minQuality` is still exactly 0 when the loop ends, so the
fallback encode runs at quality exactly 0; every successful result
reports `finalSizeKB` as the blob's byte length divided by 1024; and the
budget compared against throughout is `targetSizeKB * 1024` bytes. -/
theorem claim_C10_fallback_quality_zero (B : Backend) (fb : List Nat) (kb : ℚ)
    (fmt : TargetFormat) (img : SourceImage)
    (hfmt : fmt ≠ TargetFormat.png) (hdec : B.decode fb = some img) :
    (((lossySearch B fmt ⟨img.width, img.height, img.pixels⟩ (kb * 1024)
        10 0 1 none []).2.2.1 = none) ↔
      (∀ j, j < 10 →
        kb * 1024 <
          ((canvasEnc B ⟨img.width, img.height, img.pixels⟩ fmt
            (midQuality (specLossyState
              (canvasEnc B ⟨img.width, img.height, img.pixels⟩ fmt)
              (kb * 1024) j))).length : ℚ))) ∧
    ((lossySearch B fmt ⟨img.width, img.height, img.pixels⟩ (kb * 1024)
        10 0 1 none []).2.2.1 = none →
      (lossySearch B fmt ⟨img.width, img.height, img.pixels⟩ (kb * 1024)
        10 0 1 none []).1 = 0 ∧
      (processImage B fb kb fmt).2 =
        (lossySearch B fmt ⟨img.width, img.height, img.pixels⟩ (kb * 1024)
          10 0 1 none []).2.2.2 ++
          [⟨fmt, 0, img.pixels, img.width, img.height⟩]) ∧
    (∀ (B₂ : Backend) (fb₂ : List Nat) (kb₂ : ℚ) (fmt₂ : TargetFormat)
        (r : ProcResult) (tr : List EncodeCall),
      processImage B₂ fb₂ kb₂ fmt₂ = (Except.ok r, tr) →
      r.finalSizeKB = (r.blob.length : ℚ) / 1024) := by
  have heq := lossySearch_eq_spec B fmt ⟨img.width, img.height, img.pixels⟩
    (kb * 1024) 10 0 1 none []
  refine ⟨?_, ?_, ?_⟩
  · rw [heq]
    exact specLossyState_best_none
      (canvasEnc B ⟨img.width, img.height, img.pixels⟩ fmt) (kb * 1024) 10
  · intro hbest
    have hmin : (lossySearch B fmt ⟨img.width, img.height, img.pixels⟩
        (kb * 1024) 10 0 1 none []).1 = 0 := by
      rw [heq]
      rw [heq] at hbest
      exact specLossyState_min_of_best_none
        (canvasEnc B ⟨img.width, img.height, img.pixels⟩ fmt) (kb * 1024) 10 hbest
    refine ⟨hmin, ?_⟩
    rw [processImage_lossy_none B fb kb fmt img hfmt hdec hbest]
    simp only
    split <;> rw [hmin]
  · intro B₂ fb₂ kb₂ fmt₂ r tr h
    exact processImage_finalSizeKB B₂ fb₂ kb₂ fmt₂ r tr h

theorem claim_C10_witness :
    (lossySearch bigBackend TargetFormat.jpeg ⟨2, 2, [7]⟩ (1 * 1024)
      10 0 1 none []).1 = 0 ∧
    (processImage bigBackend [0] 1 TargetFormat.jpeg).2 =
      (lossySearch bigBackend TargetFormat.jpeg ⟨2, 2, [7]⟩ (1 * 1024)
        10 0 1 none []).2.2.2 ++
        [⟨TargetFormat.jpeg, 0, [7], 2, 2⟩] :=
  (claim_C10_fallback_quality_zero bigBackend [0] 1 TargetFormat.jpeg
    ⟨2, 2, [7]⟩ (by decide) rfl).2.1 bigBackend_best_none

/-- **C3.** On the lossless (PNG) path, `processImage` encodes once at
scale 1 with the original dimensions, then loops: while the encoded size
exceeds `targetSizeKB * 1024` and the scale exceeds 0.1, it lowers the
scale by 0.05, resamples at the rounded scaled dimensions and re-encodes
(`losslessState`); the loop terminates after some `K ≤ 18` iterations,
the last produced blob is returned even if still over budget, and this
path never returns an error. -/
theorem claim_C3_lossless_best_effort (B : Backend) (fb : List Nat) (kb : ℚ)
    (img : SourceImage) (hdec : B.decode fb = some img) :
    ∃ K : Nat, K ≤ 18 ∧
      (∀ j, j < K → LosslessCond (kb * 1024) (losslessState B img 1
        (getCanvasBlob B ⟨img.width, img.height, img.pixels⟩ TargetFormat.png 1) j)) ∧
      ¬ LosslessCond (kb * 1024) (losslessState B img 1
        (getCanvasBlob B ⟨img.width, img.height, img.pixels⟩ TargetFormat.png 1) K) ∧
      processImage B fb kb TargetFormat.png =
        (Except.ok ⟨(losslessState B img 1
            (getCanvasBlob B ⟨img.width, img.height, img.pixels⟩ TargetFormat.png 1) K).2,
          (((losslessState B img 1
            (getCanvasBlob B ⟨img.width, img.height, img.pixels⟩ TargetFormat.png 1) K).2.length : ℚ)) / 1024⟩,
         ⟨TargetFormat.png, 1, img.pixels, img.width, img.height⟩ ::
           losslessTraceK B img 1 K) ∧
      (∀ e tr, processImage B fb kb TargetFormat.png ≠ (Except.error e, tr)) := by
  have hsome := losslessSearch_isSome B img (kb * 1024) 18 1
    (getCanvasBlob B ⟨img.width, img.height, img.pixels⟩ TargetFormat.png 1)
    [⟨TargetFormat.png, 1, img.pixels, img.width, img.height⟩]
    (by norm_num [scaleFuel])
  obtain ⟨x, hx⟩ := Option.isSome_iff_exists.mp hsome
  obtain ⟨s, b2, tr2⟩ := x
  obtain ⟨K, hK, hstate, htrace, hguard, hstop⟩ :=
    losslessSearch_some_eq B img (kb * 1024) 18 1
      (getCanvasBlob B ⟨img.width, img.height, img.pixels⟩ TargetFormat.png 1)
      [⟨TargetFormat.png, 1, img.pixels, img.width, img.height⟩] s b2 tr2 hx
  have hproc := processImage_png_eq B fb kb img hdec s b2 tr2 hx
  have hb2 : b2 = (losslessState B img 1
      (getCanvasBlob B ⟨img.width, img.height, img.pixels⟩ TargetFormat.png 1) K).2 :=
    congrArg Prod.snd hstate
  refine ⟨K, hK, hguard, hstop, ?_, ?_⟩
  · rw [hproc, htrace, hb2]
    simp [List.singleton_append]
  · intro e tr heq
    rw [hproc] at heq
    exact absurd (congrArg Prod.fst heq) (by simp)

theorem claim_C3_witness :
    ∃ K : Nat, K ≤ 18 ∧
      (∀ j, j < K → LosslessCond (1 * 1024) (losslessState pngBackend ⟨40, 40, [1, 2]⟩ 1
        (getCanvasBlob pngBackend ⟨40, 40, [1, 2]⟩ TargetFormat.png 1) j)) ∧
      ¬ LosslessCond (1 * 1024) (losslessState pngBackend ⟨40, 40, [1, 2]⟩ 1
        (getCanvasBlob pngBackend ⟨40, 40, [1, 2]⟩ TargetFormat.png 1) K) ∧
      processImage pngBackend [0] 1 TargetFormat.png =
        (Except.ok ⟨(losslessState pngBackend ⟨40, 40, [1, 2]⟩ 1
            (getCanvasBlob pngBackend ⟨40, 40, [1, 2]⟩ TargetFormat.png 1) K).2,
          (((losslessState pngBackend ⟨40, 40, [1, 2]⟩ 1
            (getCanvasBlob pngBackend ⟨40, 40, [1, 2]⟩ TargetFormat.png 1) K).2.length : ℚ)) / 1024⟩,
         ⟨TargetFormat.png, 1, [1, 2], 40, 40⟩ ::
           losslessTraceK pngBackend ⟨40, 40, [1, 2]⟩ 1 K) ∧
      (∀ e tr, processImage pngBackend [0] 1 TargetFormat.png ≠ (Except.error e, tr)) :=
  claim_C3_lossless_best_effort pngBackend [0] 1 ⟨40, 40, [1, 2]⟩ rfl

/-! ## Lemmas about the binary64 lossless loop -/

/-- One iteration of the binary64 loop when the guard holds. -/
theorem losslessSearchFl_step (B : Backend) (img : SourceImage) (t : ℚ)
    (n : Nat) (scale : ℚ) (blob : List Nat) (tr : List EncodeCall)
    (hcond : t < (blob.length : ℚ) ∧ fl (1/10) < scale) :
    losslessSearchFl B img t (n + 1) scale blob tr =
      losslessSearchFl B img t n (sub05Fl scale)
        (losslessEncodeAtFl B img (sub05Fl scale))
        (tr ++ [losslessCallFl B img (sub05Fl scale)]) := by
  rw [losslessSearchFl, if_pos hcond]

/-- The binary64 loop stops as soon as the guard fails. -/
theorem losslessSearchFl_stop (B : Backend) (img : SourceImage) (t : ℚ)
    (fuel : Nat) (scale : ℚ) (blob : List Nat) (tr : List EncodeCall)
    (hcond : ¬ (t < (blob.length : ℚ) ∧ fl (1/10) < scale)) :
    losslessSearchFl B img t fuel scale blob tr = some (scale, blob, tr) := by
  cases fuel with
  | zero => rw [losslessSearchFl, if_neg hcond]
  | succ n => rw [losslessSearchFl, if_neg hcond]

/-- A terminating binary64 loop run from `k` steps into the scale
sequence performs some `n ≤ fuel` further iterations: the result is the
scale and blob of step `k + n` and the trace extends by the recorded
calls of steps `k+1 … k+n`. -/
theorem losslessSearchFl_some_eq (B : Backend) (img : SourceImage) (t : ℚ)
    (blob0 : List Nat) :
    ∀ (fuel k : Nat) (tr : List EncodeCall) (s : ℚ) (b2 : List Nat)
      (tr2 : List EncodeCall),
    losslessSearchFl B img t fuel (jsScale k) (flBlobAt B img blob0 k) tr =
      some (s, b2, tr2) →
    ∃ n : Nat, n ≤ fuel ∧ s = jsScale (k + n) ∧
      b2 = flBlobAt B img blob0 (k + n) ∧ tr2 = tr ++ flTrace B img k n := by
  intro fuel
  induction fuel with
  | zero =>
    intro k tr s b2 tr2 heq
    rw [losslessSearchFl] at heq
    split at heq
    · exact absurd heq (by simp)
    · have h := Option.some_inj.mp heq
      refine ⟨0, le_refl 0, ?_, ?_, ?_⟩
      · simpa using (congrArg Prod.fst h).symm
      · simpa using (congrArg (fun p => p.2.1) h).symm
      · simpa [flTrace] using (congrArg (fun p => p.2.2) h).symm
  | succ n ih =>
    intro k tr s b2 tr2 heq
    rw [losslessSearchFl] at heq
    split at heq
    · next hcond =>
      simp only at heq
      have hsc : sub05Fl (jsScale k) = jsScale (k + 1) := rfl
      rw [hsc] at heq
      have hbl : losslessEncodeAtFl B img (jsScale (k + 1)) =
          flBlobAt B img blob0 (k + 1) := rfl
      rw [hbl] at heq
      obtain ⟨m, hm, hs, hb, htr⟩ := ih (k + 1) _ _ _ _ heq
      refine ⟨m + 1, by omega, ?_, ?_, ?_⟩
      · rw [hs]
        congr 1
        omega
      · rw [hb]
        congr 1
        omega
      · rw [htr, flTrace]
        simp [List.append_assoc]
    · have h := Option.some_inj.mp heq
      refine ⟨0, by omega, ?_, ?_, ?_⟩
      · simpa using (congrArg Prod.fst h).symm
      · simpa using (congrArg (fun p => p.2.1) h).symm
      · simpa [flTrace] using (congrArg (fun p => p.2.2) h).symm

/-- Every call the binary64 loop records between steps `k` and `k + n`
is the call of some step `j` with `k + 1 ≤ j ≤ k + n`. -/
theorem flTrace_mem (B : Backend) (img : SourceImage) :
    ∀ (n k : Nat) (c : EncodeCall), c ∈ flTrace B img k n →
    ∃ j : Nat, k + 1 ≤ j ∧ j ≤ k + n ∧ c = losslessCallFl B img (jsScale j) := by
  intro n
  induction n with
  | zero => intro k c hc; simp [flTrace] at hc
  | succ n ih =>
    intro k c hc
    rw [flTrace] at hc
    rcases List.mem_cons.mp hc with h | h
    · exact ⟨k + 1, le_refl _, by omega, h⟩
    · obtain ⟨j, hj1, hj2, hcall⟩ := ih (k + 1) c h
      exact ⟨j, by omega, by omega, hcall⟩

theorem flTrace_getLast (B : Backend) (img : SourceImage) :
    ∀ (n k : Nat), 1 ≤ n →
    (flTrace B img k n).getLast? =
      some (losslessCallFl B img (jsScale (k + n))) := by
  intro n
  induction n with
  | zero => intro k h; omega
  | succ n ih =>
    intro k _
    rw [flTrace]
    cases n with
    | zero => simp [flTrace]
    | succ m =>
      rw [List.getLast?_cons, ih (k + 1) (by omega)]
      simp only [Option.getD_some]
      have harith : k + 1 + (m + 1) = k + (m + 1 + 1) := by omega
      rw [harith]

/-- `EncodeCall.run` on a binary64 loop call reproduces that
iteration's blob. -/
theorem run_losslessCallFl (B : Backend) (img : SourceImage) (sc : ℚ) :
    EncodeCall.run B (losslessCallFl B img sc) = losslessEncodeAtFl B img sc := rfl

theorem processImageFl_png_eq (B : Backend) (fb : List Nat) (kb : ℚ)
    (img : SourceImage) (hdec : B.decode fb = some img)
    (s : ℚ) (b2 : List Nat) (tr2 : List EncodeCall)
    (hsearch : losslessSearchFl B img (kb * 1024) 18 (jsScale 0)
      (getCanvasBlob B ⟨img.width, img.height, img.pixels⟩ TargetFormat.png 1)
      [⟨TargetFormat.png, 1, img.pixels, img.width, img.height⟩] = some (s, b2, tr2)) :
    processImageFl B fb kb TargetFormat.png =
      (Except.ok ⟨b2, (b2.length : ℚ) / 1024⟩, tr2) := by
  unfold processImageFl
  rw [hdec]
  simp only [if_pos rfl]
  simp only [hsearch, Option.get_some, if_true]

/-- The double product `45 × 0.95ᵈ` rounds to exactly 42.75, whose
`Math.round` is 43 — the same width as the exact model's 43. -/
theorem fl45s1_val : fl ((45 : ℚ) * jsScale 1) = 171/4 := by
  rw [jsScaleVal1]
  have harg : (45 : ℚ) * (4278419646001971 / 2 ^ 52) = 192528884070088695 / 2 ^ 52 := by
    norm_num
  rw [harg]
  exact fl_eq _ _ 5 6016527627190272 (by norm_num) (by norm_num) (by norm_num)
    (by
      have harg2 : (192528884070088695 : ℚ) / 2 ^ 52 * 2 ^ ((52 : ℤ) - 5) =
          192528884070088695 / 32 := by norm_num
      rw [harg2]
      have hr := roundHalfEven_gt ((192528884070088695 : ℚ) / 32) 6016527627190271
        (by norm_num) (by norm_num)
      rw [hr]
      norm_num)
    (by norm_num)

/-- The double product `45 × 0.8999999999999999` is
40.49999999999999…, strictly below 40.5, so `Math.round` gives 40 —
while the exact model's `round(45 × 0.9) = round(40.5) = 41`. -/
theorem fl45s2_val : fl ((45 : ℚ) * jsScale 2) = 5699868278390783 / 2 ^ 47 := by
  rw [jsScaleVal2]
  have harg : (45 : ℚ) * (2026619832316723 / 2 ^ 51) = 91197892454252535 / 2 ^ 51 := by
    norm_num
  rw [harg]
  exact fl_eq _ _ 5 5699868278390783 (by norm_num) (by norm_num) (by norm_num)
    (by
      have harg2 : (91197892454252535 : ℚ) / 2 ^ 51 * 2 ^ ((52 : ℤ) - 5) =
          91197892454252535 / 16 := by norm_num
      rw [harg2]
      exact roundHalfEven_lt _ 5699868278390783 (by norm_num) (by norm_num))
    (by norm_num)

theorem dims45s1 : losslessDimsFl ⟨45, 45, [9]⟩ (jsScale 1) = (43, 43) := by
  unfold losslessDimsFl
  have h1 : (((⟨45, 45, [9]⟩ : SourceImage).width : ℚ)) = 45 := by norm_num
  rw [h1, fl45s1_val]
  have hr : (round ((171 : ℚ) / 4)).toNat = 43 := by
    norm_num [round_eq]
    decide
  rw [hr]

theorem dims45s2 : losslessDimsFl ⟨45, 45, [9]⟩ (jsScale 2) = (40, 40) := by
  unfold losslessDimsFl
  have h1 : (((⟨45, 45, [9]⟩ : SourceImage).width : ℚ)) = 45 := by norm_num
  rw [h1, fl45s2_val]
  have hr : (round ((5699868278390783 : ℚ) / 2 ^ 47)).toNat = 40 := by
    norm_num [round_eq]
    decide
  rw [hr]

theorem png45_enc1 : losslessEncodeAtFl png45Backend ⟨45, 45, [9]⟩ (jsScale 1) =
    List.replicate 1849 0 := by
  simp only [losslessEncodeAtFl, losslessCanvasFl, getCanvasBlob, png45Backend]
  rw [dims45s1]
  norm_num

theorem png45_enc2 : losslessEncodeAtFl png45Backend ⟨45, 45, [9]⟩ (jsScale 2) =
    List.replicate 1600 0 := by
  simp only [losslessEncodeAtFl, losslessCanvasFl, getCanvasBlob, png45Backend]
  rw [dims45s2]
  norm_num

/-- The concrete binary64 run on the 45×45 image with a 1664-byte
budget: the loop runs two iterations (blob sizes 2025, 1849, then 1600
which fits) and returns the step-2 blob, encoded at 40×40. -/
theorem png45_run :
    losslessSearchFl png45Backend ⟨45, 45, [9]⟩ (13/8 * 1024) 18 (jsScale 0)
      (getCanvasBlob png45Backend ⟨45, 45, [9]⟩ TargetFormat.png 1)
      [⟨TargetFormat.png, 1, [9], 45, 45⟩] =
    some (jsScale 2, List.replicate 1600 0,
      [⟨TargetFormat.png, 1, [9], 45, 45⟩,
       losslessCallFl png45Backend ⟨45, 45, [9]⟩ (jsScale 1),
       losslessCallFl png45Backend ⟨45, 45, [9]⟩ (jsScale 2)]) := by
  have hblob0 : getCanvasBlob png45Backend ⟨45, 45, [9]⟩ TargetFormat.png 1 =
      List.replicate 2025 0 := rfl
  rw [hblob0]
  have hcond1 : (13/8 * 1024 : ℚ) < ((List.replicate 2025 (0 : Nat)).length : ℚ) ∧
      fl (1/10) < jsScale 0 := by
    constructor
    · rw [List.length_replicate]
      norm_num
    · rw [fl110_val, jsScaleVal0]
      norm_num
  rw [show (18 : Nat) = 17 + 1 from rfl,
    losslessSearchFl_step _ _ _ 17 _ _ _ hcond1,
    show sub05Fl (jsScale 0) = jsScale 1 from rfl, png45_enc1]
  have hcond2 : (13/8 * 1024 : ℚ) < ((List.replicate 1849 (0 : Nat)).length : ℚ) ∧
      fl (1/10) < jsScale 1 := by
    constructor
    · rw [List.length_replicate]
      norm_num
    · rw [fl110_val, jsScaleVal1]
      norm_num
  rw [show (17 : Nat) = 16 + 1 from rfl,
    losslessSearchFl_step _ _ _ 16 _ _ _ hcond2,
    show sub05Fl (jsScale 1) = jsScale 2 from rfl, png45_enc2]
  have hstop : ¬ ((13/8 * 1024 : ℚ) < ((List.replicate 1600 (0 : Nat)).length : ℚ) ∧
      fl (1/10) < jsScale 2) := by
    rintro ⟨h1, -⟩
    rw [List.length_replicate] at h1
    norm_num at h1
  rw [losslessSearchFl_stop _ _ _ _ _ _ _ hstop]
  rfl

/-- **C4 (counterexample).** A concrete lossless invocation under
binary64 scale arithmetic: on a 45×45 image with a 1664-byte budget the
returned blob is produced by the last encode call, whose width and
height are 40 — `Math.round(45 × 0.8999999999999999)` after two drifted
decrements — yet `round(45 × (1 − k/20))` equals 40 for NO `k ≤ 18`, so
the claimed dimension formula over the exact scale sequence
{1.0, 0.95, 0.90, …} is false of the program. -/
theorem claim_C4_counterexample :
    ∃ c, (processImageFl png45Backend [0] (13/8) TargetFormat.png).2.getLast? = some c ∧
      (processImageFl png45Backend [0] (13/8) TargetFormat.png).1 =
        Except.ok ⟨EncodeCall.run png45Backend c,
          ((EncodeCall.run png45Backend c).length : ℚ) / 1024⟩ ∧
      c.width = 40 ∧ c.height = 40 ∧
      (∀ k : Nat, k ≤ 18 → (round ((45 : ℚ) * (1 - (k : ℚ)/20))).toNat ≠ 40) := by
  have hproc := processImageFl_png_eq png45Backend [0] (13/8) ⟨45, 45, [9]⟩ rfl
    (jsScale 2) (List.replicate 1600 0) _ png45_run
  refine ⟨losslessCallFl png45Backend ⟨45, 45, [9]⟩ (jsScale 2), ?_, ?_, ?_, ?_, ?_⟩
  · rw [hproc]
    rfl
  · rw [hproc]
    simp only
    rw [run_losslessCallFl, png45_enc2]
  · show (losslessDimsFl ⟨45, 45, [9]⟩ (jsScale 2)).1 = 40
    rw [dims45s2]
  · show (losslessDimsFl ⟨45, 45, [9]⟩ (jsScale 2)).2 = 40
    rw [dims45s2]
  · intro k hk
    interval_cases k <;> norm_num [round_eq] <;> decide

/-- **C4 (amended).** Under binary64 scale arithmetic, every encode of
the lossless path is either the initial one at the intrinsic
dimensions, or uses dimensions `Math.round(originalWidth ×ᵈ scale)` by
`Math.round(originalHeight ×ᵈ scale)` (×ᵈ the double multiplication)
for a scale in the program's drifted sequence 1.0, 0.95,
0.8999999999999999, … (at most 18 decrements); the scale never goes
below the sequence's 18-step value 0.09999999999999969…, in particular
never below 0.099; and the returned blob is the output of the last such
call. -/
theorem claim_C4_amended_binary64_scale (B : Backend) (fb : List Nat) (kb : ℚ)
    (img : SourceImage) (hdec : B.decode fb = some img) :
    (∀ c ∈ (processImageFl B fb kb TargetFormat.png).2,
      (c.width = img.width ∧ c.height = img.height) ∨
      (∃ k : Nat, 1 ≤ k ∧ k ≤ 18 ∧ jsScale 18 ≤ jsScale k ∧ (99/1000 : ℚ) < jsScale k ∧
        c.width = (round (fl ((img.width : ℚ) * jsScale k))).toNat ∧
        c.height = (round (fl ((img.height : ℚ) * jsScale k))).toNat)) ∧
    (∃ c, (processImageFl B fb kb TargetFormat.png).2.getLast? = some c ∧
      (processImageFl B fb kb TargetFormat.png).1 =
        Except.ok ⟨EncodeCall.run B c, ((EncodeCall.run B c).length : ℚ) / 1024⟩) := by
  have hsome := losslessSearchFl_isSome B img (kb * 1024) 18 0
    (getCanvasBlob B ⟨img.width, img.height, img.pixels⟩ TargetFormat.png 1)
    [⟨TargetFormat.png, 1, img.pixels, img.width, img.height⟩]
    (by omega) (by omega)
  obtain ⟨x, hx⟩ := Option.isSome_iff_exists.mp hsome
  obtain ⟨s, b2, tr2⟩ := x
  obtain ⟨n, hn, hs, hb, htr⟩ := losslessSearchFl_some_eq B img (kb * 1024)
    (getCanvasBlob B ⟨img.width, img.height, img.pixels⟩ TargetFormat.png 1)
    18 0 [⟨TargetFormat.png, 1, img.pixels, img.width, img.height⟩] s b2 tr2 hx
  rw [Nat.zero_add] at hs hb
  have hproc := processImageFl_png_eq B fb kb img hdec s b2 tr2 hx
  rw [hproc]
  constructor
  · intro c hc
    simp only at hc
    rw [htr] at hc
    rcases List.mem_append.mp hc with h | h
    · left
      have hc0 : c = ⟨TargetFormat.png, 1, img.pixels, img.width, img.height⟩ := by
        simpa using h
      rw [hc0]
      exact ⟨rfl, rfl⟩
    · right
      obtain ⟨j, hj1, hjn, hcall⟩ := flTrace_mem B img n 0 c h
      have hj18 : j ≤ 18 := by omega
      obtain ⟨hge, h99⟩ := jsScale_ge j hj18
      refine ⟨j, by omega, hj18, hge, h99, ?_, ?_⟩
      · rw [hcall]
        rfl
      · rw [hcall]
        rfl
  · cases Nat.eq_zero_or_pos n with
    | inl hzero =>
      subst hzero
      refine ⟨⟨TargetFormat.png, 1, img.pixels, img.width, img.height⟩, ?_, ?_⟩
      · rw [htr]
        simp [flTrace]
      · simp only
        rw [hb]
        rfl
    | inr hpos =>
      refine ⟨losslessCallFl B img (jsScale n), ?_, ?_⟩
      · rw [htr]
        simp only [List.singleton_append, List.getLast?_cons]
        rw [flTrace_getLast B img n 0 hpos]
        simp
      · simp only
        rw [hb]
        cases n with
        | zero => omega
        | succ m =>
          rw [show flBlobAt B img
            (getCanvasBlob B ⟨img.width, img.height, img.pixels⟩ TargetFormat.png 1)
            (m + 1) = losslessEncodeAtFl B img (jsScale (m + 1)) from rfl,
            ← run_losslessCallFl]

theorem claim_C4_amended_witness :
    (∀ c ∈ (processImageFl png45Backend [0] (13/8) TargetFormat.png).2,
      (c.width = 45 ∧ c.height = 45) ∨
      (∃ k : Nat, 1 ≤ k ∧ k ≤ 18 ∧ jsScale 18 ≤ jsScale k ∧ (99/1000 : ℚ) < jsScale k ∧
        c.width = (round (fl ((45 : ℚ) * jsScale k))).toNat ∧
        c.height = (round (fl ((45 : ℚ) * jsScale k))).toNat)) ∧
    (∃ c, (processImageFl png45Backend [0] (13/8) TargetFormat.png).2.getLast? = some c ∧
      (processImageFl png45Backend [0] (13/8) TargetFormat.png).1 =
        Except.ok ⟨EncodeCall.run png45Backend c,
          ((EncodeCall.run png45Backend c).length : ℚ) / 1024⟩) :=
  claim_C4_amended_binary64_scale png45Backend [0] (13/8) ⟨45, 45, [9]⟩ rfl

/-- **C9.** In the lossless dimension search, the first encode is the
unscaled draw of the decoded source, and every later encode's pixel
content is resampled from the original decoded source image at that
call's dimensions — never from a previous iteration's output; the
decoded source (`img`) itself is a value the pure embedding never
mutates. -/
theorem claim_C9_resample_from_original (B : Backend) (fb : List Nat) (kb : ℚ)
    (img : SourceImage) (hdec : B.decode fb = some img) :
    ∃ rest, (processImage B fb kb TargetFormat.png).2 =
      ⟨TargetFormat.png, 1, img.pixels, img.width, img.height⟩ :: rest ∧
      ∀ c ∈ rest, c.content = B.resample img c.width c.height := by
  have hsome := losslessSearch_isSome B img (kb * 1024) 18 1
    (getCanvasBlob B ⟨img.width, img.height, img.pixels⟩ TargetFormat.png 1)
    [⟨TargetFormat.png, 1, img.pixels, img.width, img.height⟩]
    (by norm_num [scaleFuel])
  obtain ⟨x, hx⟩ := Option.isSome_iff_exists.mp hsome
  obtain ⟨s, b2, tr2⟩ := x
  obtain ⟨K, hK, hstate, htrace, hguard, hstop⟩ :=
    losslessSearch_some_eq B img (kb * 1024) 18 1
      (getCanvasBlob B ⟨img.width, img.height, img.pixels⟩ TargetFormat.png 1)
      [⟨TargetFormat.png, 1, img.pixels, img.width, img.height⟩] s b2 tr2 hx
  have hproc := processImage_png_eq B fb kb img hdec s b2 tr2 hx
  refine ⟨losslessTraceK B img 1 K, ?_, ?_⟩
  · rw [hproc]
    simp only
    rw [htrace]
    simp [List.singleton_append]
  · intro c hc
    obtain ⟨j, hj1, hjK, hcall⟩ := losslessTraceK_mem B img K 1 c hc
    rw [hcall]
    rfl

theorem claim_C9_witness :
    ∃ rest, (processImage pngBackend [0] 1 TargetFormat.png).2 =
      ⟨TargetFormat.png, 1, [1, 2], 40, 40⟩ :: rest ∧
      ∀ c ∈ rest, c.content = pngBackend.resample ⟨40, 40, [1, 2]⟩ c.width c.height :=
  claim_C9_resample_from_original pngBackend [0] 1 ⟨40, 40, [1, 2]⟩ rfl
